import Mathlib

/-!
Verification of the hometoucher_pi RFB session engine.

This file gives a shallow embedding, in Lean, of the pixel translation,
raw and hextile rectangle decoders, handshake reads, outbound message
encoders and touch-input translation of the repository (sources:
src/screen.rs, src/rfb_session/mod.rs, src/rfb_session/decode.rs,
src/rfb_session/rfb_messages.rs, src/rfb_session/touch.rs), and proves
or refutes the frozen specification claims about them.

Machine integers are modelled as Nat (with explicit `% 2^w` at the points
where the Rust code truncates or wraps) or as Int for the signed i32
reads.  Byte streams from the server are finite `List Nat`; a read past
the end of the list models the peer closing the connection (the Rust
reader's zero-length read).  Rust panics (`panic!`, `assert!`, ...) are
modelled as distinguished error results.
-/

namespace HomeToucher

/-- Error kinds of `RfbSessionErrorKind` (src/rfb_session/mod.rs), plus two
constructors that stand for Rust panics: `unsupportedPixelFormat` for the
`panic!` in `to_device_pixel` and `assertFailed` for the `assert!` in
`get_string_from_server`. -/
inductive RfbErr where
  | serverProtocolVersion : RfbErr
  | serverError : RfbErr
  | invalidServerCommand (code : Nat) : RfbErr
  | invalidEncoding (code : Int) : RfbErr
  | sessionClosedByServer : RfbErr
  | unsupportedPixelFormat : RfbErr
  | assertFailed : RfbErr
deriving DecidableEq, Repr

/-- Result of a fallible session step (`Result<_, RfbSessionError>`). -/
inductive RRes (α : Type) where
  | ok (val : α) : RRes α
  | err (e : RfbErr) : RRes α
deriving DecidableEq, Repr

/-- Server-advertised pixel format (struct `PixelFormat`,
src/rfb_session/mod.rs).  Fields are u8/u16/bool in Rust; they are carried
as Nat here, with values below 2^8 / 2^16 wherever they originate from
`PixelFormat::decode` of wire bytes. -/
structure PixelFormat where
  bits_per_pixel : Nat
  depth : Nat
  big_endian : Bool
  true_color : Bool
  red_max : Nat
  green_max : Nat
  blue_max : Nat
  red_shift : Nat
  green_shift : Nat
  blue_shift : Nat
deriving DecidableEq, Repr

/-- struct `Point` (src/rfb_session/rfb_messages.rs); u16 coordinates. -/
structure Point where
  x : Nat
  y : Nat
deriving DecidableEq, Repr

/-- struct `Size` (src/rfb_session/rfb_messages.rs); u16 extents. -/
structure Size where
  width : Nat
  height : Nat
deriving DecidableEq, Repr

/-- struct `Rect` (src/rfb_session/rfb_messages.rs). -/
structure Rect where
  location : Point
  size : Size
deriving DecidableEq, Repr

/-- The CPU-side image buffer of `Screen` (src/screen.rs), modelled as a
byte-addressed memory: the byte stored at each offset. -/
def Image : Type := Nat → Nat

/-- `DevicePixel::from_rgb` (src/screen.rs): RGB-565 packing
`((r >> 3) << 11) | ((g >> 2) << 5) | (b >> 3)` of three u8 components. -/
def from_rgb (r g b : Nat) : Nat :=
  (((r % 256) >>> 3) <<< 11) ||| (((g % 256) >>> 2) <<< 5) ||| ((b % 256) >>> 3)

/-- `Screen::set_at_offset` (src/screen.rs): store a DevicePixel as two
little-endian bytes at `offset` and `offset + 1`. -/
def set_at_offset (img : Image) (offset v : Nat) : Image :=
  fun i => if i = offset then v % 256 else if i = offset + 1 then (v >>> 8) % 256 else img i

/-- The 16-bit pixel value stored at a byte offset of the image
(little-endian, the inverse reading of `set_at_offset`).  Statement helper. -/
def pixelAt (img : Image) (offset : Nat) : Nat :=
  img offset + 256 * img (offset + 1)

/-- Session-wide constants: the screen geometry (`Screen::xres`, `Screen::yres`,
`Screen::bytes_per_row` = the device `line_length`), the server pixel format and
the cached `same_pixel_format` flag of `FromServerThread`. -/
structure SessionCfg where
  xres : Nat
  yres : Nat
  stride : Nat
  pf : PixelFormat
  same : Bool

/-- `FromServerThread::read` (src/rfb_session/decode.rs): loop until the
buffer is full; a zero-length read (here: too few bytes left in the stream)
yields `SessionClosedByServer`. -/
def readExact (n : Nat) (s : List Nat) : RRes (List Nat × List Nat) :=
  if n ≤ s.length then .ok (s.take n, s.drop n) else .err .sessionClosedByServer

/-- `FromServerThread::is_same_pixel_format` (src/rfb_session/decode.rs
lines 181-189), verbatim: note that the last conjunct tests
`green_shift == 0` (not `blue_shift == 0`). -/
def is_same_pixel_format (pf : PixelFormat) : Bool :=
  !pf.big_endian &&
  pf.bits_per_pixel == 16 &&
  (pf.red_max == 63 && pf.red_shift == 10) &&
  (pf.green_max == 127 && pf.green_shift == 4) &&
  (pf.blue_max == 63 && pf.green_shift == 0)

/-- `FromServerThread::bytes_per_server_pixel` (src/rfb_session/decode.rs). -/
def bytes_per_server_pixel (pf : PixelFormat) : Nat := pf.depth / 8

/-- `FromServerThread::to_device_pixel` (src/rfb_session/decode.rs lines
195-219).  `same` is the cached `same_pixel_format` flag.  `none` models the
`panic!` for a depth other than 32 on the generic path.  The slice accesses
`server_pixel[i]` become `px.getD i 0`; `% 256` marks the `as u8`/u8-element
casts, `% 2^8`-bounded by construction in the Rust code. -/
def to_device_pixel (same : Bool) (pf : PixelFormat) (px : List Nat) : Option Nat :=
  if same then
    some (px.getD 0 0 % 256 + ((px.getD 1 0 % 256) <<< 8))
  else if pf.depth = 32 then
    let pixel_value :=
      if pf.big_endian then
        ((px.getD 1 0 % 256) <<< 16) + ((px.getD 2 0 % 256) <<< 8) + px.getD 3 0 % 256
      else
        ((px.getD 2 0 % 256) <<< 16) + ((px.getD 1 0 % 256) <<< 8) + px.getD 0 0 % 256
    let r := ((pixel_value >>> pf.red_shift) &&& pf.red_max) % 256
    let g := ((pixel_value >>> pf.green_shift) &&& pf.green_max) % 256
    let b := ((pixel_value >>> pf.blue_shift) &&& pf.blue_max) % 256
    some (from_rgb r g b)
  else
    none

/-- The pixel format the specification's same-format predicate describes:
`bits_per_pixel==16, depth==16, ¬big_endian, red_max=63, red_shift=10,
green_max=127, green_shift=4, blue_max=63, blue_shift=0`.  Concrete test
vector for the claims about the fast path. -/
def pfSame : PixelFormat :=
  { bits_per_pixel := 16, depth := 16, big_endian := false, true_color := true
    red_max := 63, green_max := 127, blue_max := 63
    red_shift := 10, green_shift := 4, blue_shift := 0 }

/-- Inner column loop shared by `decode_raw_rect` and the raw branch of
`process_tile` (src/rfb_session/decode.rs): translate `count` consecutive
server pixels starting at `inIndex` of `sp` and store them at successive
2-byte device offsets starting at `offset`.  Returns the updated image and
input index; `none` models the translation `panic!`. -/
def rawRowLoop (same : Bool) (pf : PixelFormat) (bpsp : Nat) (sp : List Nat) :
    Nat → Nat → Nat → Image → Option (Image × Nat)
  | inIndex, _, 0, img => some (img, inIndex)
  | inIndex, offset, count + 1, img =>
    match to_device_pixel same pf (sp.drop inIndex) with
    | none => none
    | some p =>
      rawRowLoop same pf bpsp sp (inIndex + bpsp) (offset + 2) count
        (set_at_offset img offset p)

/-- Row loop of `decode_raw_rect` (src/rfb_session/decode.rs lines 103-113):
the device offset of each row is `(row * xres + rect.x) * 2` — the code
multiplies the row by `xres`, not by the line stride, and never adds
`rect.y`. -/
def rawRows (same : Bool) (pf : PixelFormat) (bpsp xres rectX width : Nat)
    (sp : List Nat) : Nat → Nat → Nat → Image → Option Image
  | _, _, 0, img => some img
  | row, inIndex, remaining + 1, img =>
    let offset := (row * xres + rectX) * 2
    match rawRowLoop same pf bpsp sp inIndex offset width img with
    | none => none
    | some (img2, in2) => rawRows same pf bpsp xres rectX width sp (row + 1) in2 remaining img2

/-- `FromServerThread::decode_raw_rect` (src/rfb_session/decode.rs lines
96-115): read `height * width * bpsp` bytes, then translate and store
row by row. -/
def decode_raw_rect (cfg : SessionCfg) (rect : Rect) (img : Image) (s : List Nat) :
    RRes (Image × List Nat) :=
  let bpsp := bytes_per_server_pixel cfg.pf
  match readExact (rect.size.height * rect.size.width * bpsp) s with
  | .err e => .err e
  | .ok (server_pixels, s1) =>
    match rawRows cfg.same cfg.pf bpsp cfg.xres rect.location.x rect.size.width
        server_pixels 0 0 rect.size.height img with
    | none => .err .unsupportedPixelFormat
    | some img2 => .ok (img2, s1)

/-- `CompactRect::get_x` (src/rfb_session/decode.rs): high nibble of the
`xy` byte. -/
def get_x (xy : Nat) : Nat := (xy % 256) >>> 4

/-- `CompactRect::get_y`: low nibble of the `xy` byte. -/
def get_y (xy : Nat) : Nat := (xy % 256) &&& 15

/-- `CompactRect::get_w`: high nibble of the `wh` byte, plus one. -/
def get_w (wh : Nat) : Nat := ((wh % 256) >>> 4) + 1

/-- `CompactRect::get_h`: low nibble of the `wh` byte, plus one. -/
def get_h (wh : Nat) : Nat := ((wh % 256) &&& 15) + 1

/-- `CompactRect::get_rect` (src/rfb_session/decode.rs lines 32-34). -/
def get_rect (xy wh : Nat) : Rect :=
  ⟨⟨get_x xy, get_y xy⟩, ⟨get_w wh, get_h wh⟩⟩

/-- Inner column loop of `HexTileDecoder::fill_subrect`: fill `w` pixels at
successive 2-byte offsets. -/
def fillRow (px : Nat) : Nat → Nat → Image → Image
  | _, 0, img => img
  | offset, w + 1, img => fillRow px (offset + 2) w (set_at_offset img offset px)

/-- Row loop of `HexTileDecoder::fill_subrect`: row `y` starts at
`topOffset + y * stride`. -/
def fillRows (stride w px topOffset : Nat) : Nat → Nat → Image → Image
  | _, 0, img => img
  | y, remaining + 1, img =>
    fillRows stride w px topOffset (y + 1) remaining
      (fillRow px (topOffset + y * stride) w img)

/-- `HexTileDecoder::fill_subrect` (src/rfb_session/decode.rs lines 308-321):
fill the subrectangle `sub` (coordinates relative to `tile`) with `px`;
every row offset is based on the line stride (`Screen::bytes_per_row`).
The sums `tile.y + sub.y` and `tile.x + sub.x` are computed on u16 before
the `as usize` cast, so they wrap at 2^16; the per-row `y as usize * stride`
term is usize arithmetic and does not wrap. -/
def fill_subrect (stride : Nat) (tile sub : Rect) (px : Nat) (img : Image) : Image :=
  let top := ((tile.location.y + sub.location.y) % 65536) * stride +
    ((tile.location.x + sub.location.x) % 65536) * 2
  fillRows stride sub.size.width px top 0 sub.size.height img

/-- The sticky colors of `HexTileDecoder` (src/rfb_session/decode.rs lines
222-226). -/
structure HexSt where
  foreground : Nat
  background : Nat
deriving DecidableEq, Repr

/-- `HexTileDecoder::new` (src/rfb_session/decode.rs lines 229-235): both
sticky colors start as RGB-565 black. -/
def HexSt.new : HexSt := ⟨from_rgb 0 0 0, from_rgb 0 0 0⟩

/-- One conditional pixel read of `process_tile` (the `tile_encoding & 2` and
`& 4` blocks, src/rfb_session/decode.rs lines 262-274): when `cond`, read one
server pixel and translate it; otherwise keep `dflt` (the sticky color). -/
def readPixelIf (same : Bool) (pf : PixelFormat) (cond : Bool) (dflt : Nat)
    (s : List Nat) : RRes (Nat × List Nat) :=
  if cond then
    match readExact (bytes_per_server_pixel pf) s with
    | .err e => .err e
    | .ok (pb, s1) =>
      match to_device_pixel same pf pb with
      | none => .err .unsupportedPixelFormat
      | some v => .ok (v, s1)
  else .ok (dflt, s)

/-- The `tile_encoding & 8` block of `process_tile` (src/rfb_session/decode.rs
lines 276-281): read the one-byte subrect count when the flag is set,
otherwise the count stays 0. -/
def readCountIf (cond : Bool) (s : List Nat) : RRes (Nat × List Nat) :=
  if cond then
    match readExact 1 s with
    | .err e => .err e
    | .ok (cb, s1) => .ok (cb.getD 0 0 % 256, s1)
  else .ok (0, s)

/-- The two subrect `for` loops of `process_tile` (src/rfb_session/decode.rs
lines 287-302), merged: the constant `subrect_are_colors` flag selects between
`read_color_subrect` (a `2 + bpsp`-byte buffer: pixel bytes, then `xy`, then
`wh`) and `read_subrect` (`xy`, `wh`); each subrect is filled as it is read,
colored subrects with their own pixel, uncolored ones with the current
foreground. -/
def subrectLoop (same : Bool) (pf : PixelFormat) (stride : Nat) (tile : Rect)
    (colored : Bool) (fg : Nat) : Nat → Image → List Nat → RRes (Image × List Nat)
  | 0, img, s => .ok (img, s)
  | count + 1, img, s =>
    if colored then
      match readExact (2 + bytes_per_server_pixel pf) s with
      | .err e => .err e
      | .ok (buffer, s1) =>
        match to_device_pixel same pf buffer with
        | none => .err .unsupportedPixelFormat
        | some p =>
          let xy := buffer.getD (bytes_per_server_pixel pf) 0
          let wh := buffer.getD (bytes_per_server_pixel pf + 1) 0
          subrectLoop same pf stride tile colored fg count
            (fill_subrect stride tile (get_rect xy wh) p img) s1
    else
      match readExact 2 s with
      | .err e => .err e
      | .ok (buffer, s1) =>
        subrectLoop same pf stride tile colored fg count
          (fill_subrect stride tile (get_rect (buffer.getD 0 0) (buffer.getD 1 0)) fg img) s1

/-- Row loop of the raw branch of `process_tile` (src/rfb_session/decode.rs
lines 249-258): unlike `decode_raw_rect`, each row offset is
`(tile.y + row) * bytes_per_row + tile.x * 2`; the sum `tile.y + row` is a
u16 addition wrapping at 2^16, while `tile.x` is cast to usize on its own. -/
def hexRawRows (same : Bool) (pf : PixelFormat) (bpsp stride : Nat) (tile : Rect)
    (tp : List Nat) : Nat → Nat → Nat → Image → Option Image
  | _, _, 0, img => some img
  | row, tpOff, remaining + 1, img =>
    let offset := ((tile.location.y + row) % 65536) * stride + tile.location.x * 2
    match rawRowLoop same pf bpsp tp tpOff offset tile.size.width img with
    | none => none
    | some (img2, tp2) => hexRawRows same pf bpsp stride tile tp (row + 1) tp2 remaining img2

/-- `HexTileDecoder::process_tile` (src/rfb_session/decode.rs lines 237-306):
read the tile mask byte, then either the raw branch (mask bit 0) or the
background/foreground/count reads, the whole-tile background fill and the
subrect loop. -/
def process_tile (cfg : SessionCfg) (tile : Rect) (st : HexSt) (img : Image)
    (s : List Nat) : RRes (HexSt × Image × List Nat) :=
  let bpsp := bytes_per_server_pixel cfg.pf
  match readExact 1 s with
  | .err e => .err e
  | .ok (te, s1) =>
    let mask := te.getD 0 0
    if mask &&& 1 ≠ 0 then
      match readExact (tile.size.width * tile.size.height * bpsp) s1 with
      | .err e => .err e
      | .ok (tile_pixels, s2) =>
        match hexRawRows cfg.same cfg.pf bpsp cfg.stride tile tile_pixels 0 0
            tile.size.height img with
        | none => .err .unsupportedPixelFormat
        | some img2 => .ok (st, img2, s2)
    else
      match readPixelIf cfg.same cfg.pf (mask &&& 2 ≠ 0) st.background s1 with
      | .err e => .err e
      | .ok (background, s2) =>
        match readPixelIf cfg.same cfg.pf (mask &&& 4 ≠ 0) st.foreground s2 with
        | .err e => .err e
        | .ok (foreground, s3) =>
          match readCountIf (mask &&& 8 ≠ 0) s3 with
          | .err e => .err e
          | .ok (subrect_count, s4) =>
            let subrect_are_colors := mask &&& 16 ≠ 0
            let img2 := fill_subrect cfg.stride tile ⟨⟨0, 0⟩, tile.size⟩ background img
            match subrectLoop cfg.same cfg.pf cfg.stride tile subrect_are_colors
                foreground subrect_count img2 s4 with
            | .err e => .err e
            | .ok (img3, s5) => .ok (⟨foreground, background⟩, img3, s5)

/-- Width (or height) of the tile starting at relative offset `xOff` inside a
rectangle of extent `size` (`decode_hextile_rect`, src/rfb_session/decode.rs
lines 132-133). -/
def tileWidth (size xOff : Nat) : Nat :=
  if xOff + 16 > size then size - xOff else 16

/-- `(size + 15) >> 4` computed on u16 as in `decode_hextile_rect`
(src/rfb_session/decode.rs lines 119-120); the addition wraps at 2^16. -/
def tile_count (size : Nat) : Nat := ((size + 15) % 65536) >>> 4

/-- The tile rectangle visited at horizontal index `hTile` and vertical index
`vTile` (`decode_hextile_rect`, src/rfb_session/decode.rs lines 125-135); the
u16 additions of the absolute location wrap at 2^16. -/
def tileRectAt (rect : Rect) (hTile vTile : Nat) : Rect :=
  let x_offset := hTile * 16
  let y_offset := vTile * 16
  ⟨⟨(rect.location.x + x_offset) % 65536, (rect.location.y + y_offset) % 65536⟩,
   ⟨tileWidth rect.size.width x_offset, tileWidth rect.size.height y_offset⟩⟩

/-- The tiles visited by `decode_hextile_rect`, in visit order: the outer
loop runs over `v_tile`, the inner over `h_tile` (row-major). -/
def tileRects (rect : Rect) : List Rect :=
  (List.range (tile_count rect.size.height)).flatMap fun v_tile =>
    (List.range (tile_count rect.size.width)).map fun h_tile =>
      tileRectAt rect h_tile v_tile

/-- The tile loop of `decode_hextile_rect`: process each visited tile in
order, threading the sticky-color state. -/
def hexTilesLoop (cfg : SessionCfg) :
    List Rect → HexSt → Image → List Nat → RRes (Image × List Nat)
  | [], _, img, s => .ok (img, s)
  | t :: rest, st, img, s =>
    match process_tile cfg t st img s with
    | .err e => .err e
    | .ok (st2, img2, s2) => hexTilesLoop cfg rest st2 img2 s2

/-- `FromServerThread::decode_hextile_rect` (src/rfb_session/decode.rs lines
118-142): a fresh `HexTileDecoder` (black sticky colors), then the row-major
tile loop. -/
def decode_hextile_rect (cfg : SessionCfg) (rect : Rect) (img : Image)
    (s : List Nat) : RRes (Image × List Nat) :=
  hexTilesLoop cfg (tileRects rect) HexSt.new img s

/-- enum `RfbEncodingType` (src/rfb_session/rfb_messages.rs). -/
inductive RfbEncodingType where
  | Raw : RfbEncodingType
  | HexTile : RfbEncodingType
deriving DecidableEq, Repr

/-- The wire value of each encoding (`Raw = 0`, `HexTile = 5`). -/
def RfbEncodingType.code : RfbEncodingType → Int
  | .Raw => 0
  | .HexTile => 5

/-- `RfbEncodingType::new` (src/rfb_session/rfb_messages.rs lines 128-136). -/
def encodingOfInt (encoding : Int) : RRes RfbEncodingType :=
  if encoding = 0 then .ok .Raw
  else if encoding = 5 then .ok .HexTile
  else .err (.invalidEncoding encoding)

/-- `FromServerCommands::new` (src/rfb_session/rfb_messages.rs lines 119-126):
only command 0 (FrameUpdate) is accepted. -/
def fromServerCommand (command : Nat) : RRes Unit :=
  if command = 0 then .ok () else .err (.invalidServerCommand command)

/-- enum `RfbSecurityType` (src/rfb_session/rfb_messages.rs). -/
inductive RfbSecurityType where
  | Invalid : RfbSecurityType
  | None : RfbSecurityType
  | VncAuthentication : RfbSecurityType
deriving DecidableEq, Repr

/-- The wire value of each security type. -/
def RfbSecurityType.val : RfbSecurityType → Nat
  | .Invalid => 0
  | .None => 1
  | .VncAuthentication => 2

/-- struct `FrameUpdateRequestArgs` (src/rfb_session/rfb_messages.rs). -/
structure FrameUpdateRequestArgs where
  incremental : Bool
  rect : Rect
deriving DecidableEq, Repr

/-- struct `PointerEventArgs` (src/rfb_session/rfb_messages.rs). -/
structure PointerEventArgs where
  button_mask : Nat
  location : Point
deriving DecidableEq, Repr

/-- enum `ToServerMessage` (src/rfb_session/rfb_messages.rs).  `SetCurText`
carries its UTF-8 bytes. -/
inductive ToServerMessage where
  | ProtocolVersion : ToServerMessage
  | Security (t : RfbSecurityType) : ToServerMessage
  | ClientInit (shared : Bool) : ToServerMessage
  | SetEncoding (encodings : List RfbEncodingType) : ToServerMessage
  | FrameUpdateRequest (args : FrameUpdateRequestArgs) : ToServerMessage
  | PointerEvent (args : PointerEventArgs) : ToServerMessage
  | SetCurText (text : List Nat) : ToServerMessage
  | Terminate : ToServerMessage
deriving DecidableEq, Repr

/-- `u16::to_be_bytes` of a value below 2^16. -/
def be16 (v : Nat) : List Nat := [(v % 65536) >>> 8, v % 256]

/-- `i32::to_be_bytes`: big-endian two's-complement bytes of an i32. -/
def be32i (v : Int) : List Nat :=
  let n := (v % (2 : Int) ^ 32).toNat
  [(n >>> 24) % 256, (n >>> 16) % 256, (n >>> 8) % 256, n % 256]

/-- `usize::to_be_bytes` on the 64-bit target: eight big-endian bytes. -/
def be64 (v : Nat) : List Nat :=
  [(v % 2 ^ 64) >>> 56, ((v % 2 ^ 64) >>> 48) % 256, ((v % 2 ^ 64) >>> 40) % 256,
   ((v % 2 ^ 64) >>> 32) % 256, ((v % 2 ^ 64) >>> 24) % 256, ((v % 2 ^ 64) >>> 16) % 256,
   ((v % 2 ^ 64) >>> 8) % 256, v % 256]

/-- `ToServerMessage::encode` (src/rfb_session/rfb_messages.rs lines 70-116).
`none` models the `panic!` on `Terminate`.  `"RFB 003.008\n"` is spelled as
its ASCII bytes.  Note `SetCurText` writes the text length as a
native-width (8-byte) big-endian integer, exactly as
`text_bytes.len().to_be_bytes()` does on the 64-bit target. -/
def ToServerMessage.encode : ToServerMessage → Option (List Nat)
  | .ProtocolVersion => some [82, 70, 66, 32, 48, 48, 51, 46, 48, 48, 56, 10]
  | .Security t => some [t.val % 256]
  | .ClientInit shared => some [if shared then 1 else 0]
  | .SetEncoding encodings =>
    some ([2, 0] ++ be16 encodings.length ++
      (encodings.map fun e => be32i e.code).flatten)
  | .FrameUpdateRequest args =>
    some ([3, if args.incremental then 1 else 0] ++
      be16 args.rect.location.x ++ be16 args.rect.location.y ++
      be16 args.rect.size.width ++ be16 args.rect.size.height)
  | .PointerEvent args =>
    some ([5, args.button_mask % 256] ++
      be16 args.location.x ++ be16 args.location.y)
  | .SetCurText text => some ([6, 0, 0, 0] ++ be64 text.length ++ text)
  | .Terminate => none

/-- `FromServerThread::read_u16` (src/rfb_session/decode.rs lines 144-149):
two bytes, big-endian. -/
def read_u16 (s : List Nat) : RRes (Nat × List Nat) :=
  match readExact 2 s with
  | .err e => .err e
  | .ok (b, s1) => .ok ((b.getD 0 0 % 256) * 256 + b.getD 1 0 % 256, s1)

/-- `i32::from_be_bytes` of four bytes: the signed two's-complement value. -/
def i32_of_be (b : List Nat) : Int :=
  let v : Nat := (b.getD 0 0 % 256) * 2 ^ 24 + (b.getD 1 0 % 256) * 2 ^ 16 +
    (b.getD 2 0 % 256) * 2 ^ 8 + b.getD 3 0 % 256
  if v < 2 ^ 31 then (v : Int) else (v : Int) - 2 ^ 32

/-- `FromServerThread::read_i32` (src/rfb_session/decode.rs lines 151-156). -/
def read_i32 (s : List Nat) : RRes (Int × List Nat) :=
  match readExact 4 s with
  | .err e => .err e
  | .ok (b, s1) => .ok (i32_of_be b, s1)

/-- struct `RectHeader` (src/rfb_session/decode.rs lines 17-21). -/
structure RectHeader where
  encoding : RfbEncodingType
  rect : Rect
deriving DecidableEq, Repr

/-- `FromServerThread::read_rect_header` (src/rfb_session/decode.rs lines
158-172): x, y, width, height as big-endian u16, then the i32 encoding. -/
def read_rect_header (s : List Nat) : RRes (RectHeader × List Nat) :=
  match read_u16 s with
  | .err e => .err e
  | .ok (x, s1) =>
    match read_u16 s1 with
    | .err e => .err e
    | .ok (y, s2) =>
      match read_u16 s2 with
      | .err e => .err e
      | .ok (width, s3) =>
        match read_u16 s3 with
        | .err e => .err e
        | .ok (height, s4) =>
          match read_i32 s4 with
          | .err e => .err e
          | .ok (encoding, s5) =>
            match encodingOfInt encoding with
            | .err e => .err e
            | .ok enc => .ok (⟨enc, ⟨⟨x, y⟩, ⟨width, height⟩⟩⟩, s5)

/-- Observable actions of the decoder task: a `Screen::update` call or a
message placed on the outbound channel. -/
inductive OutEvent where
  | screenUpdated : OutEvent
  | sent (m : ToServerMessage) : OutEvent
deriving DecidableEq, Repr

/-- The rectangle loop of `FromServerThread::frame_update`
(src/rfb_session/decode.rs lines 65-72): read each rectangle header and
dispatch to the Raw or HexTile decoder. -/
def rectLoop (cfg : SessionCfg) : Nat → Image → List Nat → RRes (Image × List Nat)
  | 0, img, s => .ok (img, s)
  | n + 1, img, s =>
    match read_rect_header s with
    | .err e => .err e
    | .ok (header, s1) =>
      match (match header.encoding with
             | .Raw => decode_raw_rect cfg header.rect img s1
             | .HexTile => decode_hextile_rect cfg header.rect img s1) with
      | .err e => .err e
      | .ok (img2, s2) => rectLoop cfg n img2 s2

/-- `FromServerThread::frame_update` (src/rfb_session/decode.rs lines 62-77):
read the rectangle count, drain all rectangles, then call `screen.update()`
(the `screenUpdated` event, the last action before returning `Ok`). -/
def frame_update (cfg : SessionCfg) (img : Image) (s : List Nat) :
    RRes (Image × List OutEvent × List Nat) :=
  match read_u16 s with
  | .err e => .err e
  | .ok (rectangle_count, s1) =>
    match rectLoop cfg rectangle_count img s1 with
    | .err e => .err e
    | .ok (img2, s2) => .ok (img2, [.screenUpdated], s2)

/-- The full-screen `FrameUpdateRequest` built in `refresh_screen`
(src/rfb_session/mod.rs lines 197-208 and 223-233): location (0,0), size
(`xres as u16`, `yres as u16`). -/
def fullScreenRequest (cfg : SessionCfg) (incremental : Bool) : ToServerMessage :=
  .FrameUpdateRequest ⟨incremental, ⟨⟨0, 0⟩, ⟨cfg.xres % 65536, cfg.yres % 65536⟩⟩⟩

/-- The command loop of `FromServerThread::refresh_screen`
(src/rfb_session/mod.rs lines 210-236), run for at most `fuel` iterations
(the Rust loop runs until an error unwinds it): read the 2-byte command,
dispatch (only FrameUpdate is valid), decode the update, then send the
incremental full-screen request.  The returned list is the trace of
`screen.update()` calls and outbound sends, up to the point where the loop
stops (error or fuel exhausted). -/
def refreshLoop (cfg : SessionCfg) : Nat → Image → List Nat → List OutEvent
  | 0, _, _ => []
  | fuel + 1, img, s =>
    match read_u16 s with
    | .err _ => []
    | .ok (command, s1) =>
      match fromServerCommand command with
      | .err _ => []
      | .ok _ =>
        match frame_update cfg img s1 with
        | .err _ => []
        | .ok (img2, events, s2) =>
          events ++ [.sent (fullScreenRequest cfg true)] ++ refreshLoop cfg fuel img2 s2

/-- `FromServerThread::refresh_screen` (src/rfb_session/mod.rs lines 196-237):
first the non-incremental full-screen request, then the command loop. -/
def refresh_screen (cfg : SessionCfg) (fuel : Nat) (img : Image) (s : List Nat) :
    List OutEvent :=
  .sent (fullScreenRequest cfg false) :: refreshLoop cfg fuel img s

/-- The protocol-version banner step of `initialize_protocol`
(src/rfb_session/mod.rs lines 172-178): read 12 bytes; if the returned count
is not 12, fail with `ServerProtocolVersion`. -/
def bannerCheck (s : List Nat) : RRes (List Nat) :=
  match readExact 12 s with
  | .err e => .err e
  | .ok (protocol_version, rest) =>
    if protocol_version.length ≠ 12 then .err .serverProtocolVersion
    else .ok rest

/-- `FromServerThread::get_string_from_server` (src/rfb_session/mod.rs lines
290-303): a 4-byte big-endian length read as i32, the `assert!(count < 1024)`
(`assertFailed` models the panic), then `count as usize` bytes — the cast is
the 64-bit two's-complement reinterpretation `count mod 2^64`.  The
`String::from_utf8` step is not modelled; the raw bytes are returned. -/
def get_string_from_server (s : List Nat) : RRes (List Nat × List Nat) :=
  match readExact 4 s with
  | .err e => .err e
  | .ok (count_buffer, s1) =>
    let count : Int := i32_of_be count_buffer
    if count < 1024 then
      match readExact (count % (2 : Int) ^ 64).toNat s1 with
      | .err e => .err e
      | .ok (message_bytes, s2) => .ok (message_bytes, s2)
    else .err .assertFailed

/-- struct `InputEvent` (src/rfb_session/touch.rs lines 26-34). -/
structure InputEvent where
  seconds : Int
  micro_seconds : Int
  event_type : Nat
  code : Nat
  value : Int
deriving DecidableEq, Repr

/-- The event `match` of `handle_input` (src/rfb_session/touch.rs lines
83-91), as a step function on the tracked `(x, y)` state: EV_ABS (3) with
code ABS_MT_POSITION_X (53) or ABS_MT_POSITION_Y (54) stores `value as u16`;
EV_KEY (1) with code BTN_TOUCH (330) and value 1 or 0 emits a `PointerEvent`
with button mask 1 or 0 at the tracked position; everything else is
ignored. -/
def touchStep (st : Nat × Nat) (e : InputEvent) : (Nat × Nat) × List ToServerMessage :=
  if e.event_type = 3 ∧ e.code = 53 then
    (((e.value % 65536).toNat, st.2), [])
  else if e.event_type = 3 ∧ e.code = 54 then
    ((st.1, (e.value % 65536).toNat), [])
  else if e.event_type = 1 ∧ e.code = 330 ∧ e.value = 1 then
    (st, [.PointerEvent ⟨1, ⟨st.1, st.2⟩⟩])
  else if e.event_type = 1 ∧ e.code = 330 ∧ e.value = 0 then
    (st, [.PointerEvent ⟨0, ⟨st.1, st.2⟩⟩])
  else
    (st, [])

/-- The event loop of `handle_input` over a sequence of parsed input events,
starting from tracked position `st` (initially `(0, 0)` in the source):
the final tracked position and the concatenated emitted messages. -/
def touchRun (st : Nat × Nat) : List InputEvent → (Nat × Nat) × List ToServerMessage
  | [] => (st, [])
  | e :: rest =>
    let r1 := touchStep st e
    let r2 := touchRun r1.1 rest
    (r2.1, r1.2 ++ r2.2)

/-! Statement helpers: vocabulary used only to state the claims (expected
images, cell offsets, encoded tile streams), never by the embedded code. -/

/-- The image byte offset of the pixel cell at column `cx`, row `cy` relative
to `tile`'s origin, with row stride `stride`. -/
def cellOff (stride : Nat) (tile : Rect) (cx cy : Nat) : Nat :=
  (tile.location.y + cy) * stride + (tile.location.x + cx) * 2

/-- Subrect data for building HexTile tile streams: the per-subrect pixel
bytes (empty for uncolored subrects), the `xy` byte and the `wh` byte. -/
def SubData : Type := List Nat × Nat × Nat

/-- The bytes a subrect occupies on the wire: pixel bytes first when the
tile's subrects are colored, then `xy`, then `wh`. -/
def encSub (colored : Bool) (sub : SubData) : List Nat :=
  (if colored then sub.1 else []) ++ [sub.2.1, sub.2.2]

/-- The wire bytes of a list of subrects. -/
def encSubs (colored : Bool) (subs : List SubData) : List Nat :=
  (subs.map (encSub colored)).flatten

/-- Whether the (tile-relative) rectangle `r` covers the tile-relative cell
`(cx, cy)`. -/
def inRectRel (r : Rect) (cx cy : Nat) : Prop :=
  r.location.x ≤ cx ∧ cx < r.location.x + r.size.width ∧
  r.location.y ≤ cy ∧ cy < r.location.y + r.size.height

instance (r : Rect) (cx cy : Nat) : Decidable (inRectRel r cx cy) := by
  unfold inRectRel
  infer_instance

/-- The color of the subrect `sub`: its own translated pixel when the tile's
subrects are colored, the foreground `fg` otherwise. -/
def subPaint (same : Bool) (pf : PixelFormat) (colored : Bool) (fg : Nat)
    (sub : SubData) : Nat :=
  if colored then (to_device_pixel same pf sub.1).getD 0 else fg

/-- The color of the last subrect in `subs` covering cell `(cx, cy)`, if any
(later subrects overwrite earlier ones). -/
def lastPaint (same : Bool) (pf : PixelFormat) (colored : Bool) (fg : Nat) :
    List SubData → Nat → Nat → Option Nat
  | [], _, _ => none
  | sub :: rest, cx, cy =>
    match lastPaint same pf colored fg rest cx cy with
    | some c => some c
    | none =>
      if inRectRel (get_rect sub.2.1 sub.2.2) cx cy then
        some (subPaint same pf colored fg sub)
      else none

/-- The effect on the image of painting a list of subrects in input order
(each one as `process_tile` paints it: `fill_subrect` of its decoded
rectangle with its color), later subrects over earlier ones. -/
def paintList (same : Bool) (pf : PixelFormat) (stride : Nat) (tile : Rect)
    (colored : Bool) (fg : Nat) : List SubData → Image → Image
  | [], img => img
  | sub :: subs, img =>
    paintList same pf stride tile colored fg subs
      (fill_subrect stride tile (get_rect sub.2.1 sub.2.2)
        (subPaint same pf colored fg sub) img)

/-- Whether the HexTile tile with horizontal index `p.1` and vertical index
`p.2` covers the rectangle-relative cell `(ox, oy)` of a rectangle of extent
`w × h`. -/
def tileCovers (w h : Nat) (p : Nat × Nat) (ox oy : Nat) : Prop :=
  p.1 * 16 ≤ ox ∧ ox < p.1 * 16 + tileWidth w (p.1 * 16) ∧
  p.2 * 16 ≤ oy ∧ oy < p.2 * 16 + tileWidth h (p.2 * 16)

/-! Claim theorems. -/

/-- C1 (code_bug evidence): the session's cached same-format predicate
`is_same_pixel_format` returns `false` on the pixel format the claim's
conditions describe (bits_per_pixel 16, depth 16, little-endian, maxes
63/127/63, shifts 10/4/0) — and in fact on every pixel format whatsoever,
because the source tests `green_shift == 4 && ... && green_shift == 0`
(src/rfb_session/decode.rs lines 187-188), an unsatisfiable pair, where
`blue_shift == 0` was clearly intended (the spec flags exactly this slip).
The claimed "returns true iff the nine conditions hold" therefore fails in
the if direction, and the fast path is never taken. -/
theorem c1_same_format_predicate_code_eval :
    is_same_pixel_format pfSame = false ∧
    ∀ pf : PixelFormat, is_same_pixel_format pf = false := by
  refine ⟨by decide, fun pf => ?_⟩
  unfold is_same_pixel_format
  by_cases h : pf.green_shift = 4
  · have h0 : (pf.green_shift == 0) = false := by simp [h]
    simp [h0]
  · have h4 : (pf.green_shift == 4) = false := by simp [h]
    simp [h4]

/-- C2 (code_bug evidence): with `xres = 4`, line stride 10 and a raw
rectangle at location (0, 1) of size 1×1 whose single (same-format) server
pixel is the bytes `34 12`, `decode_raw_rect` stores the pixel at image
byte offset 0 — `(row · xres + rect.x) · 2` with the rectangle's `y`
ignored — and leaves offsets 10 and 11 (the claimed
`(rect.y + y) · stride + (rect.x + x) · 2` position) untouched. -/
theorem c2_raw_offset_code_eval :
    ∃ img2 : Image,
      decode_raw_rect ⟨4, 2, 10, pfSame, true⟩ ⟨⟨0, 1⟩, ⟨1, 1⟩⟩ (fun _ => 0) [52, 18] =
        .ok (img2, []) ∧
      img2 0 = 52 ∧ img2 1 = 18 ∧ img2 10 = 0 ∧ img2 11 = 0 :=
  ⟨_, rfl, rfl, rfl, rfl, rfl⟩

/-- C3 counterexample: on the same-format pixel format of §3 and the pixel
bytes `00 F8`, the fast path (little-endian u16 copy) yields a DevicePixel
while the generic path does not produce one at all (its depth test admits
only 32; depth is 16 here, the `panic!` branch), so the two paths differ. -/
theorem c3_fast_generic_counterexample :
    to_device_pixel true pfSame [0, 248] ≠ to_device_pixel false pfSame [0, 248] := by
  decide

/-- C3 amended: for every pixel format with depth 16 — as the same-format
predicate of §3 requires — the generic path of `to_device_pixel` is
undefined (the source panics for any depth other than 32), while the fast
path returns the little-endian u16 of the first two pixel bytes; the two
paths are therefore not equivalent on same-format inputs. -/
theorem c3_fast_generic_amended (pf : PixelFormat) (px : List Nat)
    (hd : pf.depth = 16) :
    to_device_pixel false pf px = none ∧
    to_device_pixel true pf px =
      some (px.getD 0 0 % 256 + ((px.getD 1 0 % 256) <<< 8)) := by
  refine ⟨?_, rfl⟩
  simp [to_device_pixel, hd]

/-- Witness for `c3_fast_generic_amended` at the §3 pixel format and the
bytes `00 F8`. -/
theorem c3_fast_generic_amended_witness :
    pfSame.depth = 16 ∧ to_device_pixel false pfSame [0, 248] = none :=
  ⟨rfl, (c3_fast_generic_amended pfSame [0, 248] rfl).1⟩

/-- C4 counterexample: for a HexTile rectangle of width 65535 (and height
16), the 16-bit computation `(w + 15) >> 4` wraps to `14 >> 4 = 0`, so
`decode_hextile_rect` visits no tiles at all, although the rectangle is
nonempty — the visited cells do not partition the rectangle, refuting the
claim for "any width and height". -/
theorem c4_tiling_counterexample :
    tileRects ⟨⟨0, 0⟩, ⟨65535, 16⟩⟩ = [] ∧ 0 < 65535 ∧ 0 < 16 := by
  exact ⟨by decide, by decide, by decide⟩

/-- C7 counterexample: when the server closes the connection after sending
only 5 banner bytes, the banner step fails with `SessionClosedByServer`,
not with the claimed `ServerProtocolVersion`. -/
theorem c7_banner_counterexample :
    bannerCheck [82, 70, 66, 32, 48] = .err .sessionClosedByServer ∧
    (RRes.err .sessionClosedByServer : RRes (List Nat)) ≠ .err .serverProtocolVersion := by
  exact ⟨by decide, by decide⟩

/-- C7 amended: if fewer than 12 banner bytes arrive before the server
closes the connection, the handshake fails with the (equally fatal)
`SessionClosedByServer` error; the `ServerProtocolVersion` branch of
`initialize_protocol` is unreachable, because `read` only ever returns
successfully with the full requested length. -/
theorem c7_banner_amended (s : List Nat) :
    (s.length < 12 → bannerCheck s = .err .sessionClosedByServer) ∧
    bannerCheck s ≠ .err .serverProtocolVersion := by
  constructor
  · intro h
    simp [bannerCheck, readExact, show ¬ 12 ≤ s.length by omega]
  · unfold bannerCheck readExact
    by_cases h : 12 ≤ s.length
    · rw [if_pos h]
      have hl : (s.take 12).length = 12 := by
        simp [List.length_take]
        omega
      simp [hl]
    · rw [if_neg h]
      simp

/-- Witness for `c7_banner_amended` on a 5-byte banner stream. -/
theorem c7_banner_amended_witness :
    ([82, 70, 66, 32, 48] : List Nat).length < 12 ∧
    bannerCheck [82, 70, 66, 32, 48] = .err .sessionClosedByServer :=
  ⟨by decide, (c7_banner_amended [82, 70, 66, 32, 48]).1 (by decide)⟩

/-- C9: feeding EV_ABS X=100, EV_ABS Y=200, EV_KEY BTN_TOUCH=1,
EV_KEY BTN_TOUCH=0 to the touch producer emits exactly two `PointerEvent`
messages, in order, encoding to `05 01 00 64 00 C8` and `05 00 00 64 00 C8`;
position events only update the tracked x or y and emit nothing, and every
other event type/code/value combination leaves the state unchanged and
emits nothing. -/
theorem c9_touch_translation :
    (touchRun (0, 0)
        [⟨0, 0, 3, 53, 100⟩, ⟨0, 0, 3, 54, 200⟩, ⟨0, 0, 1, 330, 1⟩, ⟨0, 0, 1, 330, 0⟩] =
          ((100, 200),
           [.PointerEvent ⟨1, ⟨100, 200⟩⟩, .PointerEvent ⟨0, ⟨100, 200⟩⟩]) ∧
      [ToServerMessage.PointerEvent ⟨1, ⟨100, 200⟩⟩,
        ToServerMessage.PointerEvent ⟨0, ⟨100, 200⟩⟩].map ToServerMessage.encode =
        [some [5, 1, 0, 100, 0, 200], some [5, 0, 0, 100, 0, 200]]) ∧
    (∀ (st : Nat × Nat) (e : InputEvent), e.event_type = 3 → e.code = 53 →
      touchStep st e = (((e.value % 65536).toNat, st.2), [])) ∧
    (∀ (st : Nat × Nat) (e : InputEvent), e.event_type = 3 → e.code = 54 →
      touchStep st e = ((st.1, (e.value % 65536).toNat), [])) ∧
    (∀ (st : Nat × Nat) (e : InputEvent),
      ¬(e.event_type = 3 ∧ (e.code = 53 ∨ e.code = 54)) →
      ¬(e.event_type = 1 ∧ e.code = 330 ∧ (e.value = 1 ∨ e.value = 0)) →
      touchStep st e = (st, [])) := by
  refine ⟨⟨by decide, by decide⟩, ?_, ?_, ?_⟩
  · intro st e h1 h2
    simp [touchStep, h1, h2]
  · intro st e h1 h2
    simp [touchStep, h1, h2]
  · intro st e h1 h2
    unfold touchStep
    rw [if_neg fun hc => h1 ⟨hc.1, Or.inl hc.2⟩]
    rw [if_neg fun hc => h1 ⟨hc.1, Or.inr hc.2⟩]
    rw [if_neg fun hc => h2 ⟨hc.1, hc.2.1, Or.inl hc.2.2⟩]
    rw [if_neg fun hc => h2 ⟨hc.1, hc.2.1, Or.inr hc.2.2⟩]

/-- Witness for `c9_touch_translation`: an EV_ABS X event at value 100
updates only the tracked x. -/
theorem c9_touch_translation_witness :
    (⟨0, 0, 3, 53, 100⟩ : InputEvent).event_type = 3 ∧
    touchStep (0, 0) ⟨0, 0, 3, 53, 100⟩ = ((((100 : Int) % 65536).toNat, 0), []) :=
  ⟨by decide, c9_touch_translation.2.1 (0, 0) ⟨0, 0, 3, 53, 100⟩ (by decide) (by decide)⟩

/-- The i32 read of a 4-byte big-endian length is never below `-2^32`. -/
theorem i32_of_be_lower_bound (b : List Nat) : -(2 : Int) ^ 32 ≤ i32_of_be b := by
  unfold i32_of_be
  dsimp only
  split <;> omega

/-- C10: in `get_string_from_server`, the 4-byte length is read as a signed
i32 and the only bounds check is `assert!(count < 1024)`; every negative
length passes it, and the buffer size actually requested is the 64-bit
two's-complement reinterpretation `count + 2^64` — the lower bound 0 is
never enforced. -/
theorem c10_negative_string_length (cb rest : List Nat) (hlen : cb.length = 4)
    (hneg : i32_of_be cb < 0) :
    get_string_from_server (cb ++ rest) =
      readExact (i32_of_be cb + 2 ^ 64).toNat rest := by
  have hb := i32_of_be_lower_bound cb
  match cb, hlen with
  | [b0, b1, b2, b3], _ =>
    show get_string_from_server (b0 :: b1 :: b2 :: b3 :: rest) = _
    have h4 : readExact 4 (b0 :: b1 :: b2 :: b3 :: rest) =
        .ok ([b0, b1, b2, b3], rest) := by
      simp [readExact]
    have hc : i32_of_be [b0, b1, b2, b3] < 1024 := by omega
    have hm : i32_of_be [b0, b1, b2, b3] % (2 : Int) ^ 64 =
        i32_of_be [b0, b1, b2, b3] + 2 ^ 64 := by
      omega
    simp only [get_string_from_server, h4, hm, if_pos hc]
    cases readExact (i32_of_be [b0, b1, b2, b3] + 2 ^ 64).toNat rest with
    | err e => rfl
    | ok p =>
      obtain ⟨m, s2⟩ := p
      rfl

/-- Witness for `c10_negative_string_length` at the length bytes
`FF FF FF FF` (count = -1): the assert passes and a read of `2^64 - 1`
bytes is attempted. -/
theorem c10_negative_string_length_witness :
    ([255, 255, 255, 255] : List Nat).length = 4 ∧
    i32_of_be [255, 255, 255, 255] < 0 ∧
    get_string_from_server ([255, 255, 255, 255] ++ []) =
      readExact (i32_of_be [255, 255, 255, 255] + 2 ^ 64).toNat [] :=
  ⟨by decide, by decide,
    c10_negative_string_length [255, 255, 255, 255] [] (by decide) (by decide)⟩

/-- A successful `frame_update` performs exactly one `screen.update()` call,
as its last action before returning. -/
theorem frame_update_ok_events (cfg : SessionCfg) (img : Image) (s : List Nat)
    (i : Image) (ev : List OutEvent) (r : List Nat)
    (h : frame_update cfg img s = .ok (i, ev, r)) : ev = [.screenUpdated] := by
  unfold frame_update at h
  cases h1 : read_u16 s with
  | err e => simp [h1] at h
  | ok p =>
    obtain ⟨cnt, s1⟩ := p
    rw [h1] at h
    cases h2 : rectLoop cfg cnt img s1 with
    | err e => simp [h2] at h
    | ok q =>
      obtain ⟨i2, s2⟩ := q
      simp only [h2] at h
      simp only [RRes.ok.injEq, Prod.mk.injEq] at h
      obtain ⟨-, hev, -⟩ := h
      exact hev.symm

/-- The trace of the command loop of `refresh_screen` is, for some number
`k` of completed FrameUpdate messages, `k` repetitions of "screen update,
then one incremental full-screen request". -/
theorem refreshLoop_shape (cfg : SessionCfg) (fuel : Nat) :
    ∀ (img : Image) (s : List Nat), ∃ k, k ≤ fuel ∧
      refreshLoop cfg fuel img s =
        (List.replicate k [OutEvent.screenUpdated,
          OutEvent.sent (fullScreenRequest cfg true)]).flatten := by
  induction fuel with
  | zero => exact fun img s => ⟨0, Nat.le_refl 0, by simp [refreshLoop]⟩
  | succ n ih =>
    intro img s
    cases h1 : read_u16 s with
    | err e => exact ⟨0, by omega, by simp [refreshLoop, h1]⟩
    | ok p =>
      obtain ⟨cmd, s1⟩ := p
      cases h2 : fromServerCommand cmd with
      | err e => exact ⟨0, by omega, by simp [refreshLoop, h1, h2]⟩
      | ok u =>
        cases h3 : frame_update cfg img s1 with
        | err e => exact ⟨0, by omega, by simp [refreshLoop, h1, h2, h3]⟩
        | ok t =>
          obtain ⟨img2, events, s2⟩ := t
          have hev : events = [.screenUpdated] :=
            frame_update_ok_events cfg img s1 img2 events s2 h3
          obtain ⟨k, hk, hshape⟩ := ih img2 s2
          refine ⟨k + 1, by omega, ?_⟩
          simp [refreshLoop, h1, h2, h3, hev, hshape, List.replicate_succ]

/-- C8: the decoder's main loop first sends the non-incremental full-screen
request; thereafter its entire observable trace consists of, per completed
FrameUpdate message (all rectangles drained), one `screen.update()` call
followed immediately by exactly one incremental full-screen
`FrameUpdateRequest`, before the next command is read — and no incremental
request is issued at any other point (the trace contains nothing else). -/
theorem c8_incremental_request_pacing (cfg : SessionCfg) (fuel : Nat)
    (img : Image) (s : List Nat) :
    ∃ k, k ≤ fuel ∧
      refresh_screen cfg fuel img s =
        OutEvent.sent (fullScreenRequest cfg false) ::
          (List.replicate k [OutEvent.screenUpdated,
            OutEvent.sent (fullScreenRequest cfg true)]).flatten := by
  obtain ⟨k, hk, hs⟩ := refreshLoop_shape cfg fuel img s
  exact ⟨k, hk, by simp [refresh_screen, hs]⟩

/-- When its flag is down, the conditional pixel read keeps the sticky
color and the stream. -/
theorem readPixelIf_false (same : Bool) (pf : PixelFormat) (d : Nat)
    (s : List Nat) : readPixelIf same pf false d s = .ok (d, s) := rfl

/-- Inversion of a successful non-raw (or raw) `process_tile`: the sticky
colors can only change when the corresponding subencoding flag is set in
the tile's mask byte. -/
theorem process_tile_state (cfg : SessionCfg) (tile : Rect) (st : HexSt)
    (img : Image) (mask : Nat) (rest : List Nat) (st' : HexSt) (img' : Image)
    (s' : List Nat)
    (h : process_tile cfg tile st img (mask :: rest) = .ok (st', img', s')) :
    ((mask &&& 1 ≠ 0 ∨ mask &&& 4 = 0) → st'.foreground = st.foreground) ∧
    ((mask &&& 1 ≠ 0 ∨ mask &&& 2 = 0) → st'.background = st.background) := by
  have hread : readExact 1 (mask :: rest) = .ok ([mask], rest) := by
    simp [readExact]
  unfold process_tile at h
  rw [hread] at h
  simp only [List.getD_cons_zero] at h
  by_cases h1 : mask &&& 1 ≠ 0
  · rw [if_pos h1] at h
    cases h2 : readExact (tile.size.width * tile.size.height *
        bytes_per_server_pixel cfg.pf) rest with
    | err e => rw [h2] at h; dsimp only at h; cases h
    | ok p =>
      obtain ⟨tp, s2⟩ := p
      rw [h2] at h
      dsimp only at h
      cases h3 : hexRawRows cfg.same cfg.pf (bytes_per_server_pixel cfg.pf)
          cfg.stride tile tp 0 0 tile.size.height img with
      | none => rw [h3] at h; dsimp only at h; cases h
      | some img2 =>
        rw [h3] at h
        dsimp only at h
        obtain ⟨hst, -, -⟩ := Prod.mk.inj (RRes.ok.inj h)
        rw [← hst]
        exact ⟨fun _ => rfl, fun _ => rfl⟩
  · rw [if_neg h1] at h
    have h1' : mask &&& 1 = 0 := by omega
    cases hbg : readPixelIf cfg.same cfg.pf (decide (mask &&& 2 ≠ 0))
        st.background rest with
    | err e => rw [hbg] at h; dsimp only at h; cases h
    | ok pbg =>
      obtain ⟨bg, s2⟩ := pbg
      rw [hbg] at h
      dsimp only at h
      cases hfg : readPixelIf cfg.same cfg.pf (decide (mask &&& 4 ≠ 0))
          st.foreground s2 with
      | err e => rw [hfg] at h; dsimp only at h; cases h
      | ok pfg =>
        obtain ⟨fg, s3⟩ := pfg
        rw [hfg] at h
        dsimp only at h
        cases hcnt : readCountIf (decide (mask &&& 8 ≠ 0)) s3 with
        | err e => rw [hcnt] at h; dsimp only at h; cases h
        | ok pcnt =>
          obtain ⟨cnt, s4⟩ := pcnt
          rw [hcnt] at h
          dsimp only at h
          cases hloop : subrectLoop cfg.same cfg.pf cfg.stride tile
              (decide (mask &&& 16 ≠ 0)) fg cnt
              (fill_subrect cfg.stride tile ⟨⟨0, 0⟩, tile.size⟩ bg img) s4 with
          | err e => rw [hloop] at h; dsimp only at h; cases h
          | ok ploop =>
            obtain ⟨img3, s5⟩ := ploop
            rw [hloop] at h
            dsimp only at h
            obtain ⟨hst, -, -⟩ := Prod.mk.inj (RRes.ok.inj h)
            rw [← hst]
            constructor
            · intro hc
              have h4 : mask &&& 4 = 0 := by
                rcases hc with hc | hc
                · exact absurd hc h1
                · exact hc
              have : decide (mask &&& 4 ≠ 0) = false := by simp [h4]
              rw [this, readPixelIf_false] at hfg
              obtain ⟨hfg1, -⟩ := Prod.mk.inj (RRes.ok.inj hfg)
              exact hfg1.symm
            · intro hc
              have h2' : mask &&& 2 = 0 := by
                rcases hc with hc | hc
                · exact absurd hc h1
                · exact hc
              have : decide (mask &&& 2 ≠ 0) = false := by simp [h2']
              rw [this, readPixelIf_false] at hbg
              obtain ⟨hbg1, -⟩ := Prod.mk.inj (RRes.ok.inj hbg)
              exact hbg1.symm

/-- C5: within a single HexTile rectangle the sticky foreground and
background both start as RGB-565 black (`HexTileDecoder::new`); a processed
tile leaves the foreground unchanged unless its mask sets
ForegroundSpecified (bit 2) and leaves the background unchanged unless its
mask sets BackgroundSpecified (bit 1), raw tiles changing neither; hence for
two consecutively processed non-raw tiles whose masks both lack
ForegroundSpecified, the foreground used to fill the second tile's
uncolored subrects equals that used for the first (both equal the incoming
foreground). -/
theorem c5_hextile_sticky_colors :
    (HexSt.new.foreground = from_rgb 0 0 0 ∧
      HexSt.new.background = from_rgb 0 0 0) ∧
    (∀ (cfg : SessionCfg) (tile : Rect) (st : HexSt) (img : Image) (mask : Nat)
        (rest : List Nat) (st' : HexSt) (img' : Image) (s' : List Nat),
      process_tile cfg tile st img (mask :: rest) = .ok (st', img', s') →
      ((mask &&& 1 ≠ 0 ∨ mask &&& 4 = 0) → st'.foreground = st.foreground) ∧
      ((mask &&& 1 ≠ 0 ∨ mask &&& 2 = 0) → st'.background = st.background)) ∧
    (∀ (cfg : SessionCfg) (t1 t2 : Rect) (st : HexSt) (img : Image)
        (m1 : Nat) (r1 : List Nat) (st1 : HexSt) (img1 : Image)
        (m2 : Nat) (r2 : List Nat) (st2 : HexSt) (img2 : Image) (s2 : List Nat),
      process_tile cfg t1 st img (m1 :: r1) = .ok (st1, img1, m2 :: r2) →
      process_tile cfg t2 st1 img1 (m2 :: r2) = .ok (st2, img2, s2) →
      m1 &&& 1 = 0 → m2 &&& 1 = 0 → m1 &&& 4 = 0 → m2 &&& 4 = 0 →
      st1.foreground = st.foreground ∧ st2.foreground = st1.foreground) := by
  refine ⟨⟨rfl, rfl⟩, ?_, ?_⟩
  · intro cfg tile st img mask rest st' img' s' h
    exact process_tile_state cfg tile st img mask rest st' img' s' h
  · intro cfg t1 t2 st img m1 r1 st1 img1 m2 r2 st2 img2 s2 h1 h2 hm1 hm2 hf1 hf2
    constructor
    · exact (process_tile_state cfg t1 st img m1 r1 st1 img1 _ h1).1 (Or.inr hf1)
    · exact (process_tile_state cfg t2 st1 img1 m2 r2 st2 img2 s2 h2).1 (Or.inr hf2)

/-- Witness for `c5_hextile_sticky_colors`: a tile whose mask sets only
BackgroundSpecified (mask 2, background pixel bytes `1F 00`) leaves the
foreground untouched. -/
theorem c5_hextile_sticky_colors_witness :
    ((2 : Nat) &&& 1 ≠ 0 ∨ (2 : Nat) &&& 4 = 0) ∧
    (HexSt.mk 0 31).foreground = HexSt.new.foreground :=
  ⟨Or.inr (by decide),
    (c5_hextile_sticky_colors.2.1 ⟨4, 4, 128, pfSame, true⟩ ⟨⟨0, 0⟩, ⟨0, 0⟩⟩
      HexSt.new (fun _ => 0) 2 [31, 0] ⟨0, 31⟩ (fun _ => 0) [] rfl).1
      (Or.inr (by decide))⟩

/-- Without u16 wrap-around, the tile count is `(size + 15) / 16`. -/
theorem tile_count_eq (w : Nat) (hw : w + 15 < 65536) :
    tile_count w = (w + 15) / 16 := by
  unfold tile_count
  rw [Nat.mod_eq_of_lt hw, Nat.shiftRight_eq_div_pow]

/-- A tile is never wider than 16 cells. -/
theorem tileWidth_le (size xOff : Nat) : tileWidth size xOff ≤ 16 := by
  unfold tileWidth
  split <;> omega

/-- Length of the row-major tile enumeration. -/
theorem range_flatMap_map_length {α : Type} (n m : Nat) (f : Nat → Nat → α) :
    ((List.range n).flatMap fun j => (List.range m).map (f j)).length = n * m := by
  induction n with
  | zero => simp
  | succ n ih =>
    rw [List.range_succ, List.flatMap_append]
    simp only [List.flatMap_cons, List.flatMap_nil, List.append_nil,
      List.length_append, List.length_map, List.length_range, ih]
    try ring

/-- Entry `j * m + i` of the row-major enumeration is `f j i`. -/
theorem range_flatMap_map_get {α : Type} (n m : Nat) (f : Nat → Nat → α)
    (i j : Nat) (hi : i < m) (hj : j < n) :
    ((List.range n).flatMap fun j => (List.range m).map (f j)).get? (j * m + i) =
      some (f j i) := by
  induction n with
  | zero => omega
  | succ n ih =>
    rw [List.range_succ, List.flatMap_append]
    by_cases hjn : j < n
    · rw [List.get?_append]
      · exact ih hjn
      · rw [range_flatMap_map_length]
        have h1 : j * m + i < (j + 1) * m := by
          rw [Nat.succ_mul]
          omega
        have h2 : (j + 1) * m ≤ n * m := Nat.mul_le_mul_right m hjn
        omega
    · have hj' : j = n := by omega
      subst hj'
      rw [List.get?_append_right]
      · rw [range_flatMap_map_length]
        simp only [List.flatMap_cons, List.flatMap_nil, List.append_nil]
        have h3 : j * m + i - j * m = i := by omega
        rw [h3, List.get?_map, List.get?_range hi]
        rfl
      · rw [range_flatMap_map_length]
        omega

/-- The last tile column matches the claimed modulo rule. -/
theorem tileWidth_last (w : Nat) (hw : w + 15 < 65536) (hpos : 0 < w) :
    tileWidth w ((tile_count w - 1) * 16) =
      if w % 16 = 0 then 16 else w % 16 := by
  rw [tile_count_eq w hw]
  unfold tileWidth
  split <;> split <;> omega

/-- C4 amended: for every HexTile rectangle whose width and height are at
most 65520 (so that the u16 computation `(size + 15) >> 4` of
`decode_hextile_rect` does not wrap), the tiles visited are exactly the
row-major (left-to-right, top-to-bottom) enumeration of the 16×16 grid
cells; their cells partition the rectangle (each rectangle-relative cell
lies in exactly one tile), and the last-column tile width is
`w mod 16` unless `w mod 16 = 0`, in which case it is 16 (and the last
row height analogously).  (For widths above 65520 the wrapped tile count
is 0 and no tile is visited — see the counterexample.) -/
theorem c4_hextile_tiling_amended (rect : Rect)
    (hw : rect.size.width + 15 < 65536) (hh : rect.size.height + 15 < 65536) :
    ((tileRects rect).length =
        tile_count rect.size.height * tile_count rect.size.width ∧
      ∀ i j, i < tile_count rect.size.width → j < tile_count rect.size.height →
        (tileRects rect).get? (j * tile_count rect.size.width + i) =
          some (tileRectAt rect i j)) ∧
    (∀ ox oy, ox < rect.size.width → oy < rect.size.height →
      ∃! p : Nat × Nat, p.1 < tile_count rect.size.width ∧
        p.2 < tile_count rect.size.height ∧
        tileCovers rect.size.width rect.size.height p ox oy) ∧
    ((0 < rect.size.width →
      tileWidth rect.size.width ((tile_count rect.size.width - 1) * 16) =
        if rect.size.width % 16 = 0 then 16 else rect.size.width % 16) ∧
     (0 < rect.size.height →
      tileWidth rect.size.height ((tile_count rect.size.height - 1) * 16) =
        if rect.size.height % 16 = 0 then 16 else rect.size.height % 16)) := by
  refine ⟨⟨?_, ?_⟩, ?_, fun hp => tileWidth_last _ hw hp, fun hp => tileWidth_last _ hh hp⟩
  · exact range_flatMap_map_length _ _ _
  · intro i j hi hj
    exact range_flatMap_map_get _ _ _ i j hi hj
  · intro ox oy hox hoy
    have hcw := tile_count_eq rect.size.width hw
    have hch := tile_count_eq rect.size.height hh
    refine ⟨(ox / 16, oy / 16), ⟨?_, ?_, ?_, ?_, ?_, ?_⟩, ?_⟩
    · rw [hcw]; omega
    · rw [hch]; omega
    · show ox / 16 * 16 ≤ ox
      omega
    · show ox < ox / 16 * 16 + tileWidth rect.size.width (ox / 16 * 16)
      unfold tileWidth
      split <;> omega
    · show oy / 16 * 16 ≤ oy
      omega
    · show oy < oy / 16 * 16 + tileWidth rect.size.height (oy / 16 * 16)
      unfold tileWidth
      split <;> omega
    · rintro ⟨q1, q2⟩ ⟨-, -, hc1, hc2, hc3, hc4⟩
      dsimp only at hc1 hc2 hc3 hc4
      have hw1 := tileWidth_le rect.size.width (q1 * 16)
      have hw2 := tileWidth_le rect.size.height (q2 * 16)
      simp only [Prod.mk.injEq]
      constructor <;> omega

/-- Witness for `c4_hextile_tiling_amended` on a 20×20 rectangle at (3, 5):
two tile columns and two tile rows. -/
theorem c4_hextile_tiling_amended_witness :
    (20 + 15 < 65536 ∧ 20 + 15 < 65536) ∧
    (tileRects ⟨⟨3, 5⟩, ⟨20, 20⟩⟩).length = tile_count 20 * tile_count 20 :=
  ⟨⟨by decide, by decide⟩,
    (c4_hextile_tiling_amended ⟨⟨3, 5⟩, ⟨20, 20⟩⟩ (by decide) (by decide)).1.1⟩

/-- `set_at_offset` leaves every byte other than the two written ones
unchanged. -/
theorem set_at_offset_out (img : Image) (offset v q : Nat)
    (h1 : q ≠ offset) (h2 : q ≠ offset + 1) :
    set_at_offset img offset v q = img q := by
  unfold set_at_offset
  rw [if_neg h1, if_neg h2]

/-- The two bytes written by `set_at_offset`, read back as a pixel. -/
theorem pixelAt_set_at_offset (img : Image) (offset v : Nat) :
    pixelAt (set_at_offset img offset v) offset = v % 65536 := by
  unfold pixelAt set_at_offset
  rw [if_pos rfl, if_neg (by omega), if_pos rfl, Nat.shiftRight_eq_div_pow]
  norm_num
  omega

/-- `fillRow` does not touch bytes outside `[offset, offset + 2w)`. -/
theorem fillRow_out (px : Nat) : ∀ (w offset : Nat) (img : Image) (q : Nat),
    (q < offset ∨ offset + 2 * w ≤ q) → fillRow px offset w img q = img q := by
  intro w
  induction w with
  | zero => intro offset img q _; rfl
  | succ w ih =>
    intro offset img q h
    show fillRow px (offset + 2) w (set_at_offset img offset px) q = img q
    rw [ih (offset + 2) _ q (by omega)]
    exact set_at_offset_out img offset px q (by omega) (by omega)

/-- The pixel at column `k` after a `fillRow` of width `w > k`. -/
theorem fillRow_pixel (px : Nat) : ∀ (w offset k : Nat) (img : Image), k < w →
    pixelAt (fillRow px offset w img) (offset + 2 * k) = px % 65536 := by
  intro w
  induction w with
  | zero => intro offset k img hk; omega
  | succ w ih =>
    intro offset k img hk
    show pixelAt (fillRow px (offset + 2) w (set_at_offset img offset px)) (offset + 2 * k) = _
    cases k with
    | zero =>
      rw [show offset + 2 * 0 = offset by ring]
      unfold pixelAt
      rw [fillRow_out px w (offset + 2) _ offset (by omega)]
      rw [fillRow_out px w (offset + 2) _ (offset + 1) (by omega)]
      exact pixelAt_set_at_offset img offset px
    | succ k =>
      rw [show offset + 2 * (k + 1) = (offset + 2) + 2 * k by ring]
      exact ih (offset + 2) k _ (by omega)

/-- Byte separation of pixel cells on different rows: with a stride of at
least `2 (Tx + 32)`, the two bytes of the cell at column `Tx + c` (c ≤ 31)
on an earlier row end strictly before the cell at column `Tx + c'` of any
later row begins. -/
theorem byte_sep_row (stride Ty Tx c c' cy cy' : Nat)
    (hstride : 2 * (Tx + 32) ≤ stride) (hc : c ≤ 31) (h : cy < cy') :
    (Ty + cy) * stride + (Tx + c) * 2 + 2 ≤ (Ty + cy') * stride + (Tx + c') * 2 := by
  have h1 : (Ty + cy + 1) * stride ≤ (Ty + cy') * stride :=
    Nat.mul_le_mul_right stride (by omega)
  have h2 : (Ty + cy + 1) * stride = (Ty + cy) * stride + stride := Nat.succ_mul _ _
  omega

/-- `fillRows` does not touch a byte that lies in none of its row spans. -/
theorem fillRows_out (stride w px top : Nat) : ∀ (rem y : Nat) (img : Image) (q : Nat),
    (∀ dy, dy < rem → q < top + (y + dy) * stride ∨ top + (y + dy) * stride + 2 * w ≤ q) →
    fillRows stride w px top y rem img q = img q := by
  intro rem
  induction rem with
  | zero => intro y img q _; rfl
  | succ rem ih =>
    intro y img q h
    show fillRows stride w px top (y + 1) rem (fillRow px (top + y * stride) w img) q = img q
    have hrest : ∀ dy, dy < rem →
        q < top + ((y + 1) + dy) * stride ∨ top + ((y + 1) + dy) * stride + 2 * w ≤ q := by
      intro dy hdy
      have h' := h (dy + 1) (by omega)
      have heq : y + (dy + 1) = (y + 1) + dy := by omega
      rw [heq] at h'
      exact h'
    rw [ih (y + 1) _ q hrest]
    have h0 := h 0 (by omega)
    rw [Nat.add_zero] at h0
    exact fillRow_out px w (top + y * stride) img q h0

/-- The pixel at row `dy`, column `k` after `fillRows`, provided the cell's
bytes are separated from every other row span. -/
theorem fillRows_pixel (stride w px top : Nat) : ∀ (rem y dy k : Nat) (img : Image),
    dy < rem → k < w →
    (∀ dy', dy' < rem → dy' ≠ dy →
      top + (y + dy) * stride + 2 * k + 2 ≤ top + (y + dy') * stride ∨
      top + (y + dy') * stride + 2 * w ≤ top + (y + dy) * stride + 2 * k) →
    pixelAt (fillRows stride w px top y rem img) (top + (y + dy) * stride + 2 * k) =
      px % 65536 := by
  intro rem
  induction rem with
  | zero => intro y dy k img h; omega
  | succ rem ih =>
    intro y dy k img hdy hk hsep
    show pixelAt (fillRows stride w px top (y + 1) rem (fillRow px (top + y * stride) w img)) _ = _
    cases dy with
    | zero =>
      have hout0 : ∀ dy'', dy'' < rem →
          top + (y + 0) * stride + 2 * k < top + ((y + 1) + dy'') * stride ∨
          top + ((y + 1) + dy'') * stride + 2 * w ≤ top + (y + 0) * stride + 2 * k := by
        intro dy'' hdy''
        have h' := hsep (dy'' + 1) (by omega) (by omega)
        have heq : y + (dy'' + 1) = (y + 1) + dy'' := by omega
        rw [heq] at h'
        omega
      have hout1 : ∀ dy'', dy'' < rem →
          top + (y + 0) * stride + 2 * k + 1 < top + ((y + 1) + dy'') * stride ∨
          top + ((y + 1) + dy'') * stride + 2 * w ≤ top + (y + 0) * stride + 2 * k + 1 := by
        intro dy'' hdy''
        have h' := hsep (dy'' + 1) (by omega) (by omega)
        have heq : y + (dy'' + 1) = (y + 1) + dy'' := by omega
        rw [heq] at h'
        omega
      unfold pixelAt
      rw [fillRows_out stride w px top rem (y + 1) _ _ hout0]
      rw [fillRows_out stride w px top rem (y + 1) _ _ hout1]
      have harg : top + (y + 0) * stride + 2 * k = (top + y * stride) + 2 * k := by ring
      rw [harg]
      exact fillRow_pixel px w (top + y * stride) k img hk
    | succ dy0 =>
      have harg : top + (y + (dy0 + 1)) * stride + 2 * k =
          top + ((y + 1) + dy0) * stride + 2 * k := by
        have : y + (dy0 + 1) = (y + 1) + dy0 := by omega
        rw [this]
      rw [harg]
      apply ih (y + 1) dy0 k _ (by omega) hk
      intro dy' hdy' hne
      have h' := hsep (dy' + 1) (by omega) (by omega)
      have he1 : y + (dy' + 1) = (y + 1) + dy' := by omega
      have he2 : y + (dy0 + 1) = (y + 1) + dy0 := by omega
      rw [he1, he2] at h'
      exact h'

/-- Characterization of `fill_subrect` at pixel-cell granularity: within the
31×31 grid of tile-relative cells (all cells a HexTile tile or its subrects
can reach), and provided the stride is at least `2 (tile.x + 32)` so that no
two grid cells share image bytes, `fill_subrect` sets exactly the cells of
the subrectangle to the pixel and leaves every other grid cell unchanged. -/
theorem fill_subrect_pixel (stride : Nat) (tile sub : Rect) (px : Nat) (img : Image)
    (cx cy : Nat)
    (hsx : sub.location.x + sub.size.width ≤ 31)
    (hsy : sub.location.y + sub.size.height ≤ 31)
    (hcx : cx ≤ 30) (hcy : cy ≤ 30)
    (hstride : 2 * (tile.location.x + 32) ≤ stride)
    (htx : tile.location.x + 31 < 65536) (hty : tile.location.y + 31 < 65536) :
    pixelAt (fill_subrect stride tile sub px img) (cellOff stride tile cx cy) =
      if inRectRel sub cx cy then px % 65536
      else pixelAt img (cellOff stride tile cx cy) := by
  unfold fill_subrect cellOff
  dsimp only
  have hmy : (tile.location.y + sub.location.y) % 65536 =
      tile.location.y + sub.location.y := Nat.mod_eq_of_lt (by omega)
  have hmx : (tile.location.x + sub.location.x) % 65536 =
      tile.location.x + sub.location.x := Nat.mod_eq_of_lt (by omega)
  rw [hmy, hmx]
  by_cases hcov : inRectRel sub cx cy
  · rw [if_pos hcov]
    unfold inRectRel at hcov
    obtain ⟨hc1, hc2, hc3, hc4⟩ := hcov
    obtain ⟨k, rfl⟩ : ∃ k, cx = sub.location.x + k := ⟨cx - sub.location.x, by omega⟩
    obtain ⟨dy, rfl⟩ : ∃ dy, cy = sub.location.y + dy := ⟨cy - sub.location.y, by omega⟩
    have heq : (tile.location.y + (sub.location.y + dy)) * stride +
        (tile.location.x + (sub.location.x + k)) * 2 =
        ((tile.location.y + sub.location.y) * stride +
          (tile.location.x + sub.location.x) * 2) + (0 + dy) * stride + 2 * k := by
      ring
    rw [heq]
    apply fillRows_pixel stride sub.size.width px _ sub.size.height 0 dy k img
      (by omega) (by omega)
    intro dy' hdy' hne
    rcases Nat.lt_or_ge dy dy' with hlt | hge
    · left
      have hb := byte_sep_row stride tile.location.y tile.location.x
        (sub.location.x + k) sub.location.x (sub.location.y + dy)
        (sub.location.y + dy') hstride (by omega) (by omega)
      have e1 : ((tile.location.y + sub.location.y) * stride +
          (tile.location.x + sub.location.x) * 2) + (0 + dy) * stride + 2 * k + 2 =
          (tile.location.y + (sub.location.y + dy)) * stride +
            (tile.location.x + (sub.location.x + k)) * 2 + 2 := by ring
      have e2 : ((tile.location.y + sub.location.y) * stride +
          (tile.location.x + sub.location.x) * 2) + (0 + dy') * stride =
          (tile.location.y + (sub.location.y + dy')) * stride +
            (tile.location.x + sub.location.x) * 2 := by ring
      omega
    · right
      have hb := byte_sep_row stride tile.location.y tile.location.x
        (sub.location.x + sub.size.width) (sub.location.x + k)
        (sub.location.y + dy') (sub.location.y + dy) hstride (by omega) (by omega)
      have e1 : ((tile.location.y + sub.location.y) * stride +
          (tile.location.x + sub.location.x) * 2) + (0 + dy') * stride +
            2 * sub.size.width =
          (tile.location.y + (sub.location.y + dy')) * stride +
            (tile.location.x + (sub.location.x + sub.size.width)) * 2 := by ring
      have e2 : ((tile.location.y + sub.location.y) * stride +
          (tile.location.x + sub.location.x) * 2) + (0 + dy) * stride + 2 * k =
          (tile.location.y + (sub.location.y + dy)) * stride +
            (tile.location.x + (sub.location.x + k)) * 2 := by ring
      omega
  · rw [if_neg hcov]
    have houtb : ∀ b, b ≤ 1 → ∀ dy', dy' < sub.size.height →
        (tile.location.y + cy) * stride + (tile.location.x + cx) * 2 + b <
          ((tile.location.y + sub.location.y) * stride +
            (tile.location.x + sub.location.x) * 2) + (0 + dy') * stride ∨
        ((tile.location.y + sub.location.y) * stride +
          (tile.location.x + sub.location.x) * 2) + (0 + dy') * stride +
            2 * sub.size.width ≤
          (tile.location.y + cy) * stride + (tile.location.x + cx) * 2 + b := by
      intro b hb dy' hdy'
      have e2 : ((tile.location.y + sub.location.y) * stride +
          (tile.location.x + sub.location.x) * 2) + (0 + dy') * stride =
          (tile.location.y + (sub.location.y + dy')) * stride +
            (tile.location.x + sub.location.x) * 2 := by ring
      have e3 : ((tile.location.y + sub.location.y) * stride +
          (tile.location.x + sub.location.x) * 2) + (0 + dy') * stride +
            2 * sub.size.width =
          (tile.location.y + (sub.location.y + dy')) * stride +
            (tile.location.x + (sub.location.x + sub.size.width)) * 2 := by ring
      rcases Nat.lt_trichotomy cy (sub.location.y + dy') with hlt | heqr | hgt
      · left
        have hb2 := byte_sep_row stride tile.location.y tile.location.x
          cx sub.location.x cy (sub.location.y + dy') hstride (by omega) hlt
        omega
      · have hcol : cx < sub.location.x ∨ sub.location.x + sub.size.width ≤ cx := by
          by_contra hcon
          push_neg at hcon
          exact hcov (show inRectRel sub cx cy from ⟨by omega, by omega, by omega, by omega⟩)
        rw [← heqr] at e2 e3
        rcases hcol with hcol | hcol
        · left; omega
        · right; omega
      · right
        have hb2 := byte_sep_row stride tile.location.y tile.location.x
          (sub.location.x + sub.size.width) cx (sub.location.y + dy') cy hstride
          (by omega) hgt
        omega
    have hout0 : ∀ dy', dy' < sub.size.height →
        (tile.location.y + cy) * stride + (tile.location.x + cx) * 2 <
          ((tile.location.y + sub.location.y) * stride +
            (tile.location.x + sub.location.x) * 2) + (0 + dy') * stride ∨
        ((tile.location.y + sub.location.y) * stride +
          (tile.location.x + sub.location.x) * 2) + (0 + dy') * stride +
            2 * sub.size.width ≤
          (tile.location.y + cy) * stride + (tile.location.x + cx) * 2 := by
      intro dy' hdy'
      have := houtb 0 (by omega) dy' hdy'
      omega
    have hout1 : ∀ dy', dy' < sub.size.height →
        (tile.location.y + cy) * stride + (tile.location.x + cx) * 2 + 1 <
          ((tile.location.y + sub.location.y) * stride +
            (tile.location.x + sub.location.x) * 2) + (0 + dy') * stride ∨
        ((tile.location.y + sub.location.y) * stride +
          (tile.location.x + sub.location.x) * 2) + (0 + dy') * stride +
            2 * sub.size.width ≤
          (tile.location.y + cy) * stride + (tile.location.x + cx) * 2 + 1 := by
      intro dy' hdy'
      have := houtb 1 (by omega) dy' hdy'
      omega
    unfold pixelAt
    rw [fillRows_out stride sub.size.width px _ sub.size.height 0 img _ hout0]
    rw [fillRows_out stride sub.size.width px _ sub.size.height 0 img _ hout1]

/-- `read` of exactly the first chunk of a structured stream. -/
theorem readExact_append (a b : List Nat) : readExact a.length (a ++ b) = .ok (a, b) := by
  unfold readExact
  rw [if_pos (by simp)]
  rw [List.take_left, List.drop_left]

/-- On the fast path, or on the generic path with depth 32, pixel
translation always produces a value (the `panic!` branch is not reached). -/
theorem to_device_pixel_isSome (same : Bool) (pf : PixelFormat) (px : List Nat)
    (hok : same = true ∨ pf.depth = 32) :
    ∃ v, to_device_pixel same pf px = some v := by
  cases hx : to_device_pixel same pf px with
  | some v => exact ⟨v, rfl⟩
  | none =>
    exfalso
    unfold to_device_pixel at hx
    by_cases hs : same = true
    · rw [hs] at hx
      simp at hx
    · have hd : pf.depth = 32 := by tauto
      rw [if_neg hs, if_pos hd] at hx
      simp at hx

/-- Translation only inspects the first `bytes_per_server_pixel` bytes (two
on the fast path, four on the depth-32 generic path), so appending trailing
bytes does not change the translated pixel. -/
theorem to_device_pixel_append (same : Bool) (pf : PixelFormat) (a b : List Nat)
    (ha : a.length = bytes_per_server_pixel pf) (h2 : 2 ≤ bytes_per_server_pixel pf)
    (hok : same = true ∨ pf.depth = 32) :
    to_device_pixel same pf (a ++ b) = to_device_pixel same pf a := by
  cases same with
  | true =>
    have g0 : (a ++ b)[0]? = a[0]? := List.getElem?_append_left (by omega)
    have g1 : (a ++ b)[1]? = a[1]? := List.getElem?_append_left (by omega)
    simp [to_device_pixel, g0, g1]
  | false =>
    have hd : pf.depth = 32 := by tauto
    have ha4 : 4 ≤ a.length := by
      rw [ha]
      unfold bytes_per_server_pixel
      rw [hd]
    have g0 : (a ++ b)[0]? = a[0]? := List.getElem?_append_left (by omega)
    have g1 : (a ++ b)[1]? = a[1]? := List.getElem?_append_left (by omega)
    have g2 : (a ++ b)[2]? = a[2]? := List.getElem?_append_left (by omega)
    have g3 : (a ++ b)[3]? = a[3]? := List.getElem?_append_left (by omega)
    simp [to_device_pixel, g0, g1, g2, g3, hd]

/-- A conditional pixel read with the flag up, on a structured stream. -/
theorem readPixelIf_true_append (same : Bool) (pf : PixelFormat) (dflt : Nat)
    (pxB tail : List Nat) (hlen : pxB.length = bytes_per_server_pixel pf)
    (hok : same = true ∨ pf.depth = 32) :
    readPixelIf same pf true dflt (pxB ++ tail) =
      .ok ((to_device_pixel same pf pxB).getD 0, tail) := by
  obtain ⟨v, hv⟩ := to_device_pixel_isSome same pf pxB hok
  unfold readPixelIf
  rw [if_pos rfl, ← hlen, readExact_append]
  dsimp only
  rw [hv]
  rfl

/-- A conditional pixel read on a structured stream, both flag cases. -/
theorem readPixelIf_structured (same : Bool) (pf : PixelFormat) (cond : Prop)
    [Decidable cond] (dflt : Nat) (pxB tail : List Nat)
    (hlen : pxB.length = if cond then bytes_per_server_pixel pf else 0)
    (hok : same = true ∨ pf.depth = 32) :
    readPixelIf same pf (decide cond) dflt (pxB ++ tail) =
      .ok ((if cond then (to_device_pixel same pf pxB).getD 0 else dflt), tail) := by
  by_cases hc : cond
  · have hdec : decide cond = true := by simp [hc]
    rw [hdec, readPixelIf_true_append same pf dflt pxB tail
      (by rwa [if_pos hc] at hlen) hok, if_pos hc]
  · have hdec : decide cond = false := by simp [hc]
    have hnil : pxB = [] := List.length_eq_zero.mp (by rwa [if_neg hc] at hlen)
    subst hnil
    rw [hdec, List.nil_append, readPixelIf_false, if_neg hc]

/-- The conditional subrect-count read on a structured stream. -/
theorem readCountIf_structured (cond : Prop) [Decidable cond] (n : Nat)
    (hn : n < 256) (tail : List Nat) :
    readCountIf (decide cond) ((if cond then [n] else []) ++ tail) =
      .ok ((if cond then n else 0), tail) := by
  by_cases hc : cond
  · have hdec : decide cond = true := by simp [hc]
    rw [if_pos hc, if_pos hc, hdec]
    unfold readCountIf
    rw [if_pos rfl]
    have hre : readExact 1 ([n] ++ tail) = .ok ([n], tail) := by
      simp [readExact]
    rw [hre]
    dsimp only [List.getD_cons_zero]
    rw [Nat.mod_eq_of_lt hn]
  · have hdec : decide cond = false := by simp [hc]
    rw [if_neg hc, if_neg hc, hdec, List.nil_append]
    rfl

/-- The `xy` nibble values are at most 15. -/
theorem get_x_le (xy : Nat) : get_x xy ≤ 15 := by
  unfold get_x
  rw [Nat.shiftRight_eq_div_pow]
  have : xy % 256 < 256 := Nat.mod_lt _ (by omega)
  omega

/-- The `y` nibble is at most 15. -/
theorem get_y_le (xy : Nat) : get_y xy ≤ 15 := Nat.and_le_right

/-- The decoded subrect width is between 1 and 16. -/
theorem get_w_le (wh : Nat) : get_w wh ≤ 16 := by
  unfold get_w
  rw [Nat.shiftRight_eq_div_pow]
  have : wh % 256 < 256 := Nat.mod_lt _ (by omega)
  omega

/-- The decoded subrect height is between 1 and 16. -/
theorem get_h_le (wh : Nat) : get_h wh ≤ 16 := by
  unfold get_h
  have : wh % 256 &&& 15 ≤ 15 := Nat.and_le_right
  omega

/-- Running the subrect loop on the encoded bytes of a subrect list paints
exactly those subrects, in order, and consumes exactly their bytes. -/
theorem subrectLoop_run (same : Bool) (pf : PixelFormat) (stride : Nat)
    (tile : Rect) (colored : Bool) (fg : Nat)
    (hok : same = true ∨ pf.depth = 32) (hb2 : 2 ≤ bytes_per_server_pixel pf) :
    ∀ (subs : List SubData) (img : Image) (rest : List Nat),
      (∀ sub ∈ subs, if colored = true then sub.1.length = bytes_per_server_pixel pf
        else sub.1 = []) →
      subrectLoop same pf stride tile colored fg subs.length img
          (encSubs colored subs ++ rest) =
        .ok (paintList same pf stride tile colored fg subs img, rest) := by
  intro subs
  induction subs with
  | nil =>
    intro img rest _
    simp [encSubs, subrectLoop, paintList]
  | cons sub subs ih =>
    intro img rest hpx
    have hsub := hpx sub (List.mem_cons_self _ _)
    have hrest := fun s hs => hpx s (List.mem_cons_of_mem sub hs)
    have hstream : encSubs colored (sub :: subs) ++ rest =
        encSub colored sub ++ (encSubs colored subs ++ rest) := by
      simp [encSubs]
    show subrectLoop same pf stride tile colored fg (subs.length + 1) img
        (encSubs colored (sub :: subs) ++ rest) = _
    rw [hstream]
    cases colored with
    | false =>
      have hnil : sub.1 = [] := by simpa using hsub
      have hbuf : encSub false sub = [sub.2.1, sub.2.2] := by
        simp [encSub]
      rw [hbuf]
      show (match readExact 2 ([sub.2.1, sub.2.2] ++ (encSubs false subs ++ rest)) with
            | RRes.err e => RRes.err e
            | RRes.ok (buffer, s1) =>
              subrectLoop same pf stride tile false fg subs.length
                (fill_subrect stride tile
                  (get_rect (buffer.getD 0 0) (buffer.getD 1 0)) fg img) s1) = _
      have hre : readExact 2 ([sub.2.1, sub.2.2] ++ (encSubs false subs ++ rest)) =
          .ok ([sub.2.1, sub.2.2], encSubs false subs ++ rest) :=
        readExact_append [sub.2.1, sub.2.2] _
      rw [hre]
      dsimp only
      rw [ih _ _ hrest]
      rfl
    | true =>
      have hlen : sub.1.length = bytes_per_server_pixel pf := by simpa using hsub
      have hbuf : encSub true sub = sub.1 ++ [sub.2.1, sub.2.2] := by
        simp [encSub]
      rw [hbuf, List.append_assoc]
      show (match readExact (2 + bytes_per_server_pixel pf)
              (sub.1 ++ ([sub.2.1, sub.2.2] ++ (encSubs true subs ++ rest))) with
            | RRes.err e => RRes.err e
            | RRes.ok (buffer, s1) =>
              match to_device_pixel same pf buffer with
              | none => RRes.err RfbErr.unsupportedPixelFormat
              | some p =>
                subrectLoop same pf stride tile true fg subs.length
                  (fill_subrect stride tile
                    (get_rect (buffer.getD (bytes_per_server_pixel pf) 0)
                      (buffer.getD (bytes_per_server_pixel pf + 1) 0)) p img) s1) = _
      have hblen : 2 + bytes_per_server_pixel pf =
          (sub.1 ++ [sub.2.1, sub.2.2]).length := by
        simp [hlen]
        omega
      have hre : readExact (2 + bytes_per_server_pixel pf)
          ((sub.1 ++ [sub.2.1, sub.2.2]) ++ (encSubs true subs ++ rest)) =
          .ok (sub.1 ++ [sub.2.1, sub.2.2], encSubs true subs ++ rest) := by
        rw [hblen]
        exact readExact_append _ _
      rw [← List.append_assoc, hre]
      dsimp only
      obtain ⟨v, hv⟩ := to_device_pixel_isSome same pf sub.1 hok
      have hvb : to_device_pixel same pf (sub.1 ++ [sub.2.1, sub.2.2]) = some v := by
        rw [to_device_pixel_append same pf sub.1 _ hlen hb2 hok]
        exact hv
      rw [hvb]
      dsimp only
      have hxy : (sub.1 ++ [sub.2.1, sub.2.2]).getD (bytes_per_server_pixel pf) 0 =
          sub.2.1 := by
        rw [List.getD_append_right _ _ _ _ (by omega), hlen]
        simp
      have hwh : (sub.1 ++ [sub.2.1, sub.2.2]).getD (bytes_per_server_pixel pf + 1) 0 =
          sub.2.2 := by
        rw [List.getD_append_right _ _ _ _ (by omega), hlen]
        have : bytes_per_server_pixel pf + 1 - bytes_per_server_pixel pf = 1 := by omega
        rw [this]
        rfl
      rw [hxy, hwh, ih _ _ hrest]
      show RRes.ok (paintList same pf stride tile true fg subs
          (fill_subrect stride tile (get_rect sub.2.1 sub.2.2) v img), rest) =
        RRes.ok (paintList same pf stride tile true fg subs
          (fill_subrect stride tile (get_rect sub.2.1 sub.2.2)
            ((to_device_pixel same pf sub.1).getD 0) img), rest)
      rw [hv]
      rfl

/-- Painting a subrect list affects a grid cell according to the last
subrect covering it; uncovered cells keep their previous pixel. -/
theorem paintList_pixel (same : Bool) (pf : PixelFormat) (stride : Nat)
    (tile : Rect) (colored : Bool) (fg : Nat)
    (hstride : 2 * (tile.location.x + 32) ≤ stride)
    (htx : tile.location.x + 31 < 65536) (hty : tile.location.y + 31 < 65536) :
    ∀ (subs : List SubData) (img : Image) (cx cy : Nat), cx ≤ 30 → cy ≤ 30 →
      pixelAt (paintList same pf stride tile colored fg subs img)
          (cellOff stride tile cx cy) =
        match lastPaint same pf colored fg subs cx cy with
        | some c => c % 65536
        | none => pixelAt img (cellOff stride tile cx cy) := by
  intro subs
  induction subs with
  | nil => intro img cx cy _ _; rfl
  | cons sub subs ih =>
    intro img cx cy hcx hcy
    show pixelAt (paintList same pf stride tile colored fg subs
        (fill_subrect stride tile (get_rect sub.2.1 sub.2.2)
          (subPaint same pf colored fg sub) img)) (cellOff stride tile cx cy) = _
    rw [ih _ cx cy hcx hcy]
    cases hl : lastPaint same pf colored fg subs cx cy with
    | some c =>
      show c % 65536 = _
      unfold lastPaint
      rw [hl]
    | none =>
      show pixelAt (fill_subrect stride tile (get_rect sub.2.1 sub.2.2)
          (subPaint same pf colored fg sub) img) (cellOff stride tile cx cy) = _
      rw [fill_subrect_pixel stride tile (get_rect sub.2.1 sub.2.2) _ img cx cy
        (by
          show get_x sub.2.1 + get_w sub.2.2 ≤ 31
          have := get_x_le sub.2.1
          have := get_w_le sub.2.2
          omega)
        (by
          show get_y sub.2.1 + get_h sub.2.2 ≤ 31
          have := get_y_le sub.2.1
          have := get_h_le sub.2.2
          omega)
        hcx hcy hstride htx hty]
      show _ = (match lastPaint same pf colored fg (sub :: subs) cx cy with
        | some c => c % 65536
        | none => pixelAt img (cellOff stride tile cx cy))
      unfold lastPaint
      rw [hl]
      dsimp only
      by_cases hcov : inRectRel (get_rect sub.2.1 sub.2.2) cx cy
      · rw [if_pos hcov, if_pos hcov]
      · rw [if_neg hcov, if_neg hcov]

/-- C6: for every non-raw HexTile tile (mask bit 0 clear), `process_tile`
reads, in order, a background pixel iff bit 1 is set, a foreground pixel iff
bit 2 is set, and a one-byte subrect count iff bit 3 is set (0 otherwise);
it fills the whole tile with the (possibly just-updated) background and then
paints the subrects over it in input order, later subrects overwriting
earlier ones: a cell's final pixel is the color of the last subrect covering
it, else the background inside the tile, else unchanged.  A subrect's x and
y are the high and low nibbles of its `xy` byte (0..15) and its width and
height the nibbles of its `wh` byte plus one (1..16); colored subrects
(bit 4) carry their own pixel before `xy`/`wh` and uncolored ones are filled
with the current foreground.  When bit 0 (Raw) is set, all other mask bits
are ignored.  (Hypotheses: a translatable pixel format — fast path or
depth 32 — with at least 2 bytes per pixel, a tile of at most 16×16, a
stride of at least `2 (tile.x + 32)` so distinct cells use distinct image
bytes, and a tile location with `x + 31` and `y + 31` below 2^16, so the
u16 sums `tile.y + sub.y` / `tile.x + sub.x` of `fill_subrect` do not
wrap; the stream is the structured tile record followed by `rest`.) -/
theorem c6_hextile_tile_decoding :
    (∀ (cfg : SessionCfg) (tile : Rect) (st : HexSt) (img : Image)
        (mask n : Nat) (bgB fgB : List Nat) (subs : List SubData) (rest : List Nat),
      cfg.same = true ∨ cfg.pf.depth = 32 →
      2 ≤ bytes_per_server_pixel cfg.pf →
      mask &&& 1 = 0 →
      bgB.length = (if mask &&& 2 ≠ 0 then bytes_per_server_pixel cfg.pf else 0) →
      fgB.length = (if mask &&& 4 ≠ 0 then bytes_per_server_pixel cfg.pf else 0) →
      n < 256 →
      subs.length = (if mask &&& 8 ≠ 0 then n else 0) →
      (∀ sub ∈ subs, if mask &&& 16 ≠ 0 then
        sub.1.length = bytes_per_server_pixel cfg.pf else sub.1 = []) →
      tile.size.width ≤ 16 → tile.size.height ≤ 16 →
      2 * (tile.location.x + 32) ≤ cfg.stride →
      tile.location.x + 31 < 65536 → tile.location.y + 31 < 65536 →
      ∃ img' : Image,
        process_tile cfg tile st img
            (mask :: (bgB ++ (fgB ++ ((if mask &&& 8 ≠ 0 then [n] else []) ++
              (encSubs (decide (mask &&& 16 ≠ 0)) subs ++ rest))))) =
          .ok (⟨(if mask &&& 4 ≠ 0 then (to_device_pixel cfg.same cfg.pf fgB).getD 0
                  else st.foreground),
                (if mask &&& 2 ≠ 0 then (to_device_pixel cfg.same cfg.pf bgB).getD 0
                  else st.background)⟩, img', rest) ∧
        ∀ cx cy, cx ≤ 30 → cy ≤ 30 →
          pixelAt img' (cellOff cfg.stride tile cx cy) =
            match lastPaint cfg.same cfg.pf (decide (mask &&& 16 ≠ 0))
                (if mask &&& 4 ≠ 0 then (to_device_pixel cfg.same cfg.pf fgB).getD 0
                  else st.foreground) subs cx cy with
            | some c => c % 65536
            | none =>
              if cx < tile.size.width ∧ cy < tile.size.height then
                (if mask &&& 2 ≠ 0 then (to_device_pixel cfg.same cfg.pf bgB).getD 0
                  else st.background) % 65536
              else pixelAt img (cellOff cfg.stride tile cx cy)) ∧
    (∀ (cfg : SessionCfg) (tile : Rect) (st : HexSt) (img : Image) (mask : Nat)
        (s : List Nat), mask &&& 1 ≠ 0 →
      process_tile cfg tile st img (mask :: s) =
        process_tile cfg tile st img (1 :: s)) := by
  constructor
  · intro cfg tile st img mask n bgB fgB subs rest hok hb2 hmask hbg hfg hn hcnt hpx
      htw hth hstride htx hty
    refine ⟨paintList cfg.same cfg.pf cfg.stride tile (decide (mask &&& 16 ≠ 0))
      (if mask &&& 4 ≠ 0 then (to_device_pixel cfg.same cfg.pf fgB).getD 0
        else st.foreground) subs
      (fill_subrect cfg.stride tile ⟨⟨0, 0⟩, tile.size⟩
        (if mask &&& 2 ≠ 0 then (to_device_pixel cfg.same cfg.pf bgB).getD 0
          else st.background) img), ?_, ?_⟩
    · have h0 : readExact 1 (mask :: (bgB ++ (fgB ++
          ((if mask &&& 8 ≠ 0 then [n] else []) ++
          (encSubs (decide (mask &&& 16 ≠ 0)) subs ++ rest))))) =
          .ok ([mask], bgB ++ (fgB ++ ((if mask &&& 8 ≠ 0 then [n] else []) ++
            (encSubs (decide (mask &&& 16 ≠ 0)) subs ++ rest)))) := by
        simp [readExact]
      unfold process_tile
      rw [h0]
      dsimp only [List.getD_cons_zero]
      rw [if_neg (by omega)]
      rw [readPixelIf_structured cfg.same cfg.pf (mask &&& 2 ≠ 0) st.background bgB _
        hbg hok]
      dsimp only
      rw [readPixelIf_structured cfg.same cfg.pf (mask &&& 4 ≠ 0) st.foreground fgB _
        hfg hok]
      dsimp only
      rw [readCountIf_structured (mask &&& 8 ≠ 0) n hn _]
      dsimp only
      rw [show (if mask &&& 8 ≠ 0 then n else 0) = subs.length from hcnt.symm]
      have hpx' : ∀ sub ∈ subs, if decide (mask &&& 16 ≠ 0) = true then
          sub.1.length = bytes_per_server_pixel cfg.pf else sub.1 = [] := by
        intro s hs
        have h' := hpx s hs
        by_cases h16 : mask &&& 16 ≠ 0
        · simpa [h16] using h'
        · simpa [h16] using h'
      rw [subrectLoop_run cfg.same cfg.pf cfg.stride tile (decide (mask &&& 16 ≠ 0)) _
        hok hb2 subs _ rest hpx']
    · intro cx cy hcx hcy
      rw [paintList_pixel cfg.same cfg.pf cfg.stride tile (decide (mask &&& 16 ≠ 0)) _
        hstride htx hty subs _ cx cy hcx hcy]
      cases hl : lastPaint cfg.same cfg.pf (decide (mask &&& 16 ≠ 0))
          (if mask &&& 4 ≠ 0 then (to_device_pixel cfg.same cfg.pf fgB).getD 0
            else st.foreground) subs cx cy with
      | some c => rfl
      | none =>
        show pixelAt (fill_subrect cfg.stride tile ⟨⟨0, 0⟩, tile.size⟩ _ img)
          (cellOff cfg.stride tile cx cy) = _
        rw [fill_subrect_pixel cfg.stride tile ⟨⟨0, 0⟩, tile.size⟩ _ img cx cy
          (by show 0 + tile.size.width ≤ 31; omega)
          (by show 0 + tile.size.height ≤ 31; omega) hcx hcy hstride htx hty]
        by_cases hin : cx < tile.size.width ∧ cy < tile.size.height
        · rw [if_pos (show inRectRel ⟨⟨0, 0⟩, tile.size⟩ cx cy from
            ⟨Nat.zero_le _, show cx < 0 + tile.size.width by omega,
              Nat.zero_le _, show cy < 0 + tile.size.height by omega⟩), if_pos hin]
        · have hnin : ¬ inRectRel ⟨⟨0, 0⟩, tile.size⟩ cx cy := by
            intro hc
            obtain ⟨-, hcw, -, hch⟩ := hc
            have hcw2 : cx < 0 + tile.size.width := hcw
            have hch2 : cy < 0 + tile.size.height := hch
            exact hin ⟨by omega, by omega⟩
          rw [if_neg hnin, if_neg hin]
  · intro cfg tile st img mask s hm
    have h1 : readExact 1 (mask :: s) = .ok ([mask], s) := by simp [readExact]
    have h2 : readExact 1 (1 :: s) = .ok ([1], s) := by simp [readExact]
    unfold process_tile
    rw [h1, h2]
    dsimp only [List.getD_cons_zero]
    rw [if_pos hm, if_pos (by decide : (1 : Nat) &&& 1 ≠ 0)]

/-- Witness for `c6_hextile_tile_decoding`: the spec's scenario 4 — mask
`0x0A` (background + subrect count), background pixel `1F 00` (blue), one
uncolored subrect `xy = 0x12`, `wh = 0x23`, on a 16×16 tile at the origin
with stride 1280. -/
theorem c6_hextile_tile_decoding_witness :
    (10 : Nat) &&& 1 = 0 ∧ (1 : Nat) < 256 ∧
    ∃ img' : Image,
      process_tile ⟨640, 480, 1280, pfSame, true⟩ ⟨⟨0, 0⟩, ⟨16, 16⟩⟩ HexSt.new
          (fun _ => 0)
          (10 :: ([31, 0] ++ ([] ++ ((if (10 : Nat) &&& 8 ≠ 0 then [1] else []) ++
            (encSubs (decide ((10 : Nat) &&& 16 ≠ 0)) [([], 18, 35)] ++ []))))) =
        .ok (⟨(if (10 : Nat) &&& 4 ≠ 0 then (to_device_pixel true pfSame []).getD 0
                else HexSt.new.foreground),
              (if (10 : Nat) &&& 2 ≠ 0 then (to_device_pixel true pfSame [31, 0]).getD 0
                else HexSt.new.background)⟩, img', []) ∧
      ∀ cx cy, cx ≤ 30 → cy ≤ 30 →
        pixelAt img' (cellOff 1280 ⟨⟨0, 0⟩, ⟨16, 16⟩⟩ cx cy) =
          match lastPaint true pfSame (decide ((10 : Nat) &&& 16 ≠ 0))
              (if (10 : Nat) &&& 4 ≠ 0 then (to_device_pixel true pfSame []).getD 0
                else HexSt.new.foreground) [([], 18, 35)] cx cy with
          | some c => c % 65536
          | none =>
            if cx < 16 ∧ cy < 16 then
              (if (10 : Nat) &&& 2 ≠ 0 then (to_device_pixel true pfSame [31, 0]).getD 0
                else HexSt.new.background) % 65536
            else pixelAt (fun _ => 0) (cellOff 1280 ⟨⟨0, 0⟩, ⟨16, 16⟩⟩ cx cy) := by
  refine ⟨by decide, by decide, ?_⟩
  exact c6_hextile_tile_decoding.1 ⟨640, 480, 1280, pfSame, true⟩ ⟨⟨0, 0⟩, ⟨16, 16⟩⟩
    HexSt.new (fun _ => 0) 10 1 [31, 0] [] [([], 18, 35)] []
    (Or.inl rfl) (by decide) (by decide) (by decide) (by decide) (by decide)
    (by decide) (by intro s hs; rw [List.mem_singleton] at hs; subst hs; decide)
    (by decide) (by decide) (by decide) (by decide) (by decide)

end HomeToucher
